import Mathlib

/-!
Verification of the `SubtaskTimeoutManager` timeout lifecycle coordinator
(`src/core/task/SubtaskTimeoutManager.ts`).

The manager is embedded shallowly as a state machine:

* `ManagerState` holds the three JS `Map`s of the class (`timeouts`,
  `warnings`, `statuses`, modelled as association lists keyed by task id),
  the virtual clock `now` (the value of `Date.now()` in milliseconds, as an
  `Int`), the scheduler's list of `pending` timers (a `setTimeout` handle
  that has been cancelled via `clearTimeout(handle)` is removed from this
  list and can never fire), a `nextHandle` counter producing fresh timer
  handles, and an `events` log recording every callback invocation
  (`onWarning`, `onTimeout`, `onExtended`) in order.

* Each public method of the class becomes a function on `ManagerState`.
  Timer callbacks (the closures passed to `setTimeout` in the source) are
  represented by `TimerKind`, carrying exactly the values the source
  closures capture; `fireTimer` executes a closure's body.

* `advance d` models `jest.advanceTimersByTime(d)`: it repeatedly fires the
  pending timer with the smallest firing time (ties broken by scheduling
  order, i.e. by handle) among those due within the window, updating the
  clock as it goes.

Optional callbacks in `TimeoutConfig` are modelled by presence flags
(`hasOnWarning`, `hasOnExtended`); `onTimeout` is mandatory in the source.
JS truthiness of `warningMs` (`undefined` and `0` are falsy) is modelled
explicitly, as is `status.warningMs || Infinity` (a comparison against
`Infinity` is always false).
-/

structure TimeoutConfig where
  timeoutMs : Int
  warningMs : Option Int
  hasOnWarning : Bool
  hasOnExtended : Bool
deriving Repr, DecidableEq

structure TimeoutStatus where
  taskId : String
  startTime : Int
  timeoutMs : Int
  warningMs : Option Int
  hasWarned : Bool
  isActive : Bool
deriving Repr, DecidableEq

/-- The closures handed to `setTimeout` by the source, with their captured
values.  `startWarning` is the warning closure created in `startTimeout`
(it captures `config.timeoutMs` and `config.warningMs`); `extendWarning` is
the warning closure created in `extendTimeout` (it reads the current status
at fire time); `timeoutFire` is the timeout closure (identical in
`startTimeout` and both branches of `extendTimeout`). -/
inductive TimerKind
  | startWarning (cfgTimeoutMs : Int) (cfgWarningMs : Int)
  | extendWarning
  | timeoutFire
deriving Repr, DecidableEq

structure Timer where
  handle : Nat
  fireAt : Int
  taskId : String
  kind : TimerKind
deriving Repr, DecidableEq

/-- One entry per callback invocation, in invocation order. -/
inductive Event
  | warningFired (taskId : String) (remainingMs : Int)
  | timeoutFired (taskId : String)
  | extendedFired (taskId : String) (newTimeoutMs : Int)
deriving Repr, DecidableEq

def eventTask : Event → String
  | .warningFired j _ => j
  | .timeoutFired j => j
  | .extendedFired j _ => j

structure ManagerState where
  now : Int
  nextHandle : Nat
  pending : List Timer
  timeouts : List (String × Nat)
  warnings : List (String × Nat)
  statuses : List (String × TimeoutStatus)
  events : List Event
deriving Repr, DecidableEq

/-! ### Association-list primitives (the JS `Map` operations used) -/

def alookup {α : Type} (k : String) : List (String × α) → Option α
  | [] => none
  | p :: rest => if p.1 = k then some p.2 else alookup k rest

def aerase {α : Type} (k : String) (l : List (String × α)) : List (String × α) :=
  l.filter (fun p => p.1 ≠ k)

def aset {α : Type} (k : String) (v : α) (l : List (String × α)) : List (String × α) :=
  (k, v) :: aerase k l

def KeysNodup {α : Type} (l : List (String × α)) : Prop :=
  (l.map Prod.fst).Nodup

/-- Cancel a `setTimeout` handle: the scheduler forgets the timer. -/
def cancelHandle (h : Nat) (l : List Timer) : List Timer :=
  l.filter (fun t => t.handle ≠ h)

namespace SubtaskTimeoutManager

/-- `setTimeout(closure, delay)`: register a fresh timer due at `now + delay`
and return its handle. -/
def schedule (id : String) (delay : Int) (k : TimerKind) (s : ManagerState) :
    ManagerState × Nat :=
  ({ s with
      pending := s.pending ++
        [{ handle := s.nextHandle, fireAt := s.now + delay, taskId := id, kind := k }],
      nextHandle := s.nextHandle + 1 }, s.nextHandle)

/-- The handle-cancelling prefix shared by `clearTimeout` and `extendTimeout`:
cancel and forget the task's timeout and warning handles, if present. -/
def clearHandles (id : String) (s : ManagerState) : ManagerState :=
  let s1 :=
    match alookup id s.timeouts with
    | some h => { s with pending := cancelHandle h s.pending, timeouts := aerase id s.timeouts }
    | none => s
  match alookup id s1.warnings with
  | some h => { s1 with pending := cancelHandle h s1.pending, warnings := aerase id s1.warnings }
  | none => s1

/-- `clearTimeout(taskId)`: cancel both handles; if a status exists, mark it
inactive, delete it and return `true`, else return `false`. -/
def clearTimeout (id : String) (s : ManagerState) : ManagerState × Bool :=
  let s1 := clearHandles id s
  match alookup id s1.statuses with
  | some _ => ({ s1 with statuses := aerase id s1.statuses }, true)
  | none => (s1, false)

/-- `startTimeout(taskId, config)`. -/
def startTimeout (id : String) (cfg : TimeoutConfig) (s : ManagerState) : ManagerState :=
  let s := (clearTimeout id s).1
  let st : TimeoutStatus :=
    { taskId := id, startTime := s.now, timeoutMs := cfg.timeoutMs,
      warningMs := cfg.warningMs, hasWarned := false, isActive := true }
  let s := { s with statuses := aset id st s.statuses }
  let s :=
    match cfg.warningMs with
    | some w =>
      if w ≠ 0 ∧ cfg.hasOnWarning = true then
        let p := schedule id w (.startWarning cfg.timeoutMs w) s
        { p.1 with warnings := aset id p.2 p.1.warnings }
      else s
    | none => s
  let p := schedule id cfg.timeoutMs .timeoutFire s
  { p.1 with timeouts := aset id p.2 p.1.timeouts }

/-- `elapsed >= (status.warningMs || Infinity)`: `undefined` and `0` are
falsy, so they yield `Infinity` and the comparison is false. -/
def hasWarnedRecompute (elapsed : Int) (w? : Option Int) : Bool :=
  match w? with
  | some w => if w = 0 then false else decide (w ≤ elapsed)
  | none => false

/-- `extendTimeout(taskId, extensionMs, config?)`. -/
def extendTimeout (id : String) (extensionMs : Int) (cfg? : Option TimeoutConfig)
    (s : ManagerState) : ManagerState × Bool :=
  match alookup id s.statuses with
  | none => (s, false)
  | some status =>
    if status.isActive = false then (s, false)
    else
      let s := clearHandles id s
      let elapsed := s.now - status.startTime
      let newTimeoutMs := status.timeoutMs + extensionMs
      let remainingWarningMs : Option Int :=
        match status.warningMs with
        | some w => if w = 0 then none else some (max 0 (w - elapsed))
        | none => none
      let minRemainingMs : Int := 60000
      let remainingMs := newTimeoutMs - elapsed
      if remainingMs < minRemainingMs then
        let actualNewTimeoutMs := elapsed + minRemainingMs
        let newStatus : TimeoutStatus :=
          { status with
              timeoutMs := actualNewTimeoutMs,
              hasWarned := hasWarnedRecompute elapsed status.warningMs }
        let s := { s with statuses := aset id newStatus s.statuses }
        match cfg? with
        | some cfg =>
          let p := schedule id minRemainingMs .timeoutFire s
          let s := { p.1 with timeouts := aset id p.2 p.1.timeouts }
          let s :=
            if cfg.hasOnExtended = true then
              { s with events := s.events ++ [.extendedFired id actualNewTimeoutMs] }
            else s
          (s, true)
        | none => (s, true)
      else
        let newStatus : TimeoutStatus :=
          { status with
              timeoutMs := newTimeoutMs,
              hasWarned := hasWarnedRecompute elapsed status.warningMs }
        let s := { s with statuses := aset id newStatus s.statuses }
        match cfg? with
        | some cfg =>
          let s :=
            match remainingWarningMs with
            | some v =>
              if v ≠ 0 ∧ 0 < v ∧ cfg.hasOnWarning = true ∧ newStatus.hasWarned = false then
                let p := schedule id v .extendWarning s
                { p.1 with warnings := aset id p.2 p.1.warnings }
              else s
            | none => s
          let p := schedule id remainingMs .timeoutFire s
          let s := { p.1 with timeouts := aset id p.2 p.1.timeouts }
          let s :=
            if cfg.hasOnExtended = true then
              { s with events := s.events ++ [.extendedFired id newTimeoutMs] }
            else s
          (s, true)
        | none => (s, true)

/-- `getTimeRemaining(taskId)`. -/
def getTimeRemaining (id : String) (s : ManagerState) : Int :=
  match alookup id s.statuses with
  | none => 0
  | some st => if st.isActive = true then max 0 (st.timeoutMs - (s.now - st.startTime)) else 0

/-- `getStatus(taskId)`. -/
def getStatus (id : String) (s : ManagerState) : Option TimeoutStatus :=
  alookup id s.statuses

/-- `isActive(taskId)`. -/
def isActive (id : String) (s : ManagerState) : Bool :=
  match alookup id s.statuses with
  | some st => st.isActive
  | none => false

/-- `getActiveTimeouts()`. -/
def getActiveTimeouts (s : ManagerState) : List String :=
  (s.statuses.filter (fun p => p.2.isActive = true)).map Prod.fst

/-- `clearAll()`: iterate over the entries of `statuses` and clear every
active one. -/
def clearAll (s : ManagerState) : ManagerState :=
  s.statuses.foldl (fun acc p => if p.2.isActive = true then (clearTimeout p.1 acc).1 else acc) s

/-- `dispose()`: cancel every handle stored in the two timer maps and empty
all three maps. -/
def dispose (s : ManagerState) : ManagerState :=
  { s with
    pending := s.pending.filter
      (fun t => ¬ (s.timeouts.any (fun p => p.2 = t.handle) ∨
                   s.warnings.any (fun p => p.2 = t.handle))),
    timeouts := [], warnings := [], statuses := [] }

/-- Execute the body of a fired `setTimeout` closure.  The timer itself has
already been removed from the pending list and the clock moved to its
firing time. -/
def fireTimer (t : Timer) (s : ManagerState) : ManagerState :=
  match t.kind with
  | .timeoutFire =>
    match alookup t.taskId s.statuses with
    | some st =>
      if st.isActive = true then
        let s := { s with statuses := aset t.taskId { st with isActive := false } s.statuses }
        let s := (clearTimeout t.taskId s).1
        { s with events := s.events ++ [.timeoutFired t.taskId] }
      else s
    | none => s
  | .startWarning cfgT cfgW =>
    match alookup t.taskId s.statuses with
    | some st =>
      if st.isActive = true ∧ st.hasWarned = false then
        let s := { s with statuses := aset t.taskId { st with hasWarned := true } s.statuses }
        { s with events := s.events ++ [.warningFired t.taskId (max 0 (cfgT - cfgW))] }
      else s
    | none => s
  | .extendWarning =>
    match alookup t.taskId s.statuses with
    | some st =>
      if st.isActive = true ∧ st.hasWarned = false then
        let s := { s with statuses := aset t.taskId { st with hasWarned := true } s.statuses }
        { s with events := s.events ++
            [.warningFired t.taskId (max 0 (st.timeoutMs - (s.now - st.startTime)))] }
      else s
    | none => s

/-- `a` is a strictly better (earlier, or same time but scheduled first)
candidate to fire than `b`. -/
def betterTimer (a b : Timer) : Bool :=
  decide (a.fireAt < b.fireAt ∨ (a.fireAt = b.fireAt ∧ a.handle < b.handle))

/-- Next timer to fire within the window ending at `endT`. -/
def pickNext (endT : Int) (l : List Timer) : Option Timer :=
  l.foldl
    (fun acc t =>
      if t.fireAt ≤ endT then
        match acc with
        | none => some t
        | some b => if betterTimer t b then some t else some b
      else acc)
    none

def runTimers : Nat → Int → ManagerState → ManagerState
  | 0, _, s => s
  | fuel + 1, endT, s =>
    match pickNext endT s.pending with
    | none => s
    | some t =>
      runTimers fuel endT
        (fireTimer t { s with pending := cancelHandle t.handle s.pending,
                              now := max s.now t.fireAt })

/-- `jest.advanceTimersByTime(d)`: fire everything due within `d` ms in
time order, then settle the clock at `now + d`. -/
def advance (d : Nat) (s : ManagerState) : ManagerState :=
  let endT := s.now + (d : Int)
  let s' := runTimers s.pending.length endT s
  { s' with now := endT }

end SubtaskTimeoutManager

/-! ### Driving the manager: reachable states -/

/-- One external interaction with the coordinator. -/
inductive Op
  | start (id : String) (cfg : TimeoutConfig)
  | extend (id : String) (deltaMs : Int) (cfg : Option TimeoutConfig)
  | clear (id : String)
  | clearAll
  | dispose
  | advance (d : Nat)
deriving Repr, DecidableEq

def applyOp : Op → ManagerState → ManagerState
  | .start id cfg, s => SubtaskTimeoutManager.startTimeout id cfg s
  | .extend id d cfg, s => (SubtaskTimeoutManager.extendTimeout id d cfg s).1
  | .clear id, s => (SubtaskTimeoutManager.clearTimeout id s).1
  | .clearAll, s => SubtaskTimeoutManager.clearAll s
  | .dispose, s => SubtaskTimeoutManager.dispose s
  | .advance d, s => SubtaskTimeoutManager.advance d s

def initState : ManagerState :=
  { now := 0, nextHandle := 0, pending := [], timeouts := [], warnings := [],
    statuses := [], events := [] }

/-- The state after a fresh manager has processed `ops`. -/
def execOps (ops : List Op) : ManagerState :=
  ops.foldl (fun s op => applyOp op s) initState

def countTimeoutFired (id : String) (evs : List Event) : Nat :=
  (evs.filter (fun e => match e with | Event.timeoutFired j => j = id | _ => False)).length

def countWarningFired (id : String) (evs : List Event) : Nat :=
  (evs.filter (fun e => match e with | Event.warningFired j _ => j = id | _ => False)).length

/-- Does this operation start a (new generation of a) timeout for `id`? -/
def startsId (id : String) : Op → Bool
  | .start j _ => j = id
  | _ => false

/-- Cancel an optional handle (`clearTimeout` is only called on handles the
manager has looked up, which may be absent). -/
def cancelOpt : Option Nat → List Timer → List Timer
  | none, l => l
  | some h, l => cancelHandle h l

namespace SubtaskTimeoutManager

/-- The status record written by `startTimeout`. -/
def freshStatus (id : String) (cfg : TimeoutConfig) (now : Int) : TimeoutStatus :=
  { taskId := id, startTime := now, timeoutMs := cfg.timeoutMs,
    warningMs := cfg.warningMs, hasWarned := false, isActive := true }

/-- Truthiness test applied by the source to decide whether to schedule a
warning in `startTimeout`: `config.warningMs && config.onWarning`. -/
def warnGuard (cfg : TimeoutConfig) : Prop :=
  ∃ w, cfg.warningMs = some w ∧ w ≠ 0 ∧ cfg.hasOnWarning = true

instance (cfg : TimeoutConfig) : Decidable (warnGuard cfg) :=
  match h : cfg.warningMs with
  | none => isFalse (by rintro ⟨w, hw, _, _⟩; rw [h] at hw; cases hw)
  | some w =>
    if h2 : w ≠ 0 ∧ cfg.hasOnWarning = true then
      isTrue ⟨w, h, h2.1, h2.2⟩
    else
      isFalse (by
        rintro ⟨w', hw', h3, h4⟩
        rw [h] at hw'
        injection hw' with hww
        exact h2 ⟨hww ▸ h3, h4⟩)

/-- The status record written by `extendTimeout` (both branches): total
duration replaced by `tms`, `hasWarned` recomputed from the elapsed time
`e`, everything else (notably `startTime`) preserved. -/
def extendStatus (st : TimeoutStatus) (tms e : Int) : TimeoutStatus :=
  { st with timeoutMs := tms, hasWarned := hasWarnedRecompute e st.warningMs }

/-- The fold step used by `pickNext`. -/
def pickStep (endT : Int) (acc : Option Timer) (t : Timer) : Option Timer :=
  if t.fireAt ≤ endT then
    match acc with
    | none => some t
    | some b => if betterTimer t b then some t else some b
  else acc

end SubtaskTimeoutManager

open SubtaskTimeoutManager in
/-- Structural invariant maintained by every operation of the manager, from
construction on.  It ties the three maps, the pending timers and the
handle counter together:

* every stored status is active (every deactivation also deletes the entry);
* `hasWarned` only ever becomes true once the warning point
  (`startTime + warningMs`) has been reached;
* handles are allocated fresh and each pending timer is registered under its
  own task id in the map matching its kind;
* map entries only exist for tasks that have a status;
* every pending warning timer fires no earlier than its task's warning
  point. -/
structure MInv (s : ManagerState) : Prop where
  statuses_nodup : KeysNodup s.statuses
  statuses_active : ∀ p ∈ s.statuses, p.2.isActive = true
  warned_sound : ∀ p ∈ s.statuses, p.2.hasWarned = true →
    ∃ w, p.2.warningMs = some w ∧ w ≠ 0 ∧ p.2.startTime + w ≤ s.now
  pending_lt : ∀ t ∈ s.pending, t.handle < s.nextHandle
  timeouts_lt : ∀ p ∈ s.timeouts, p.2 < s.nextHandle
  warnings_lt : ∀ p ∈ s.warnings, p.2 < s.nextHandle
  pending_nodup : (s.pending.map Timer.handle).Nodup
  owner_t : ∀ t ∈ s.pending, ∀ p ∈ s.timeouts, p.2 = t.handle →
    p.1 = t.taskId ∧ t.kind = TimerKind.timeoutFire
  owner_w : ∀ t ∈ s.pending, ∀ p ∈ s.warnings, p.2 = t.handle →
    p.1 = t.taskId ∧ t.kind ≠ TimerKind.timeoutFire
  pending_reg : ∀ t ∈ s.pending,
    alookup t.taskId s.timeouts = some t.handle ∨ alookup t.taskId s.warnings = some t.handle
  timeouts_status : ∀ p ∈ s.timeouts, (alookup p.1 s.statuses).isSome = true
  warnings_status : ∀ p ∈ s.warnings, (alookup p.1 s.statuses).isSome = true
  warn_timer_sound : ∀ t ∈ s.pending, t.kind ≠ TimerKind.timeoutFire →
    ∀ st, alookup t.taskId s.statuses = some st →
      ∃ w, st.warningMs = some w ∧ w ≠ 0 ∧ st.startTime + w ≤ t.fireAt

/-- A sequence of `extendTimeout` calls on `id`, each with an arbitrary
delta and optional config. -/
def extendMany (id : String) (calls : List (Int × Option TimeoutConfig))
    (s : ManagerState) : ManagerState :=
  calls.foldl (fun acc c => (SubtaskTimeoutManager.extendTimeout id c.1 c.2 acc).1) s

/-- The record of `id` (if any) has already fired its warning. -/
def warnedLocked (id : String) (s : ManagerState) : Prop :=
  ∀ st, alookup id s.statuses = some st → st.hasWarned = true

/-- Configuration used by the C2 witness scenario. -/
def c2cfg : TimeoutConfig :=
  { timeoutMs := 90000, warningMs := some 2000, hasOnWarning := true, hasOnExtended := true }

/-- Configuration used by the C4 witness scenario. -/
def c4cfg : TimeoutConfig :=
  { timeoutMs := 5000, warningMs := none, hasOnWarning := false, hasOnExtended := true }

/-- Configuration of the C5 scenario: 100 s timeout, warning at 50 s, with
`onWarning` and `onExtended` callbacks provided. -/
def c5cfg : TimeoutConfig :=
  { timeoutMs := 100000, warningMs := some 50000, hasOnWarning := true, hasOnExtended := true }

/-- The C5 scenario state: the task started with `c5cfg`, 10 s elapsed. -/
def c5state : ManagerState :=
  execOps [Op.start "t1" c5cfg, Op.advance 10000]

/-- The state after `extendTimeout("t1", -45000, c5cfg)` in the C5
scenario; the requested reduction trips the 60000 ms floor clamp. -/
def c5result : ManagerState :=
  (SubtaskTimeoutManager.extendTimeout "t1" (-45000) (some c5cfg) c5state).1

/-! ### Association-list lemmas -/

section AListLemmas

variable {α : Type}

theorem alookup_eq_some_mem {k : String} {v : α} :
    ∀ {l : List (String × α)}, alookup k l = some v → (k, v) ∈ l := by
  intro l
  induction l with
  | nil => intro h; simp [alookup] at h
  | cons p rest ih =>
    intro h
    simp only [alookup] at h
    by_cases hk : p.1 = k
    · simp [hk] at h
      refine List.mem_cons.mpr (Or.inl ?_)
      cases p
      simp_all
    · simp [hk] at h
      exact List.mem_cons.mpr (Or.inr (ih h))

theorem alookup_eq_none_iff {k : String} {l : List (String × α)} :
    alookup k l = none ↔ ∀ p ∈ l, p.1 ≠ k := by
  induction l with
  | nil => simp [alookup]
  | cons p rest ih =>
    simp only [alookup]
    by_cases hk : p.1 = k
    · simp [hk]
    · simp [hk, ih]

theorem alookup_isSome_iff {k : String} {l : List (String × α)} :
    (alookup k l).isSome = true ↔ ∃ v, (k, v) ∈ l := by
  induction l with
  | nil => simp [alookup]
  | cons p rest ih =>
    simp only [alookup]
    by_cases hk : p.1 = k
    · subst hk
      simp
      exact ⟨p.2, Or.inl rfl⟩
    · simp only [hk, if_false, ih]
      constructor
      · rintro ⟨v, hv⟩
        exact ⟨v, by simp [hv]⟩
      · rintro ⟨v, hv⟩
        rcases List.mem_cons.mp hv with h | h
        · exact absurd (congrArg Prod.fst h.symm) hk
        · exact ⟨v, h⟩

theorem mem_aerase_iff {k : String} {p : String × α} {l : List (String × α)} :
    p ∈ aerase k l ↔ p ∈ l ∧ p.1 ≠ k := by
  simp [aerase, List.mem_filter]

theorem mem_aset_iff {k : String} {v : α} {p : String × α} {l : List (String × α)} :
    p ∈ aset k v l ↔ p = (k, v) ∨ (p ∈ l ∧ p.1 ≠ k) := by
  simp [aset, mem_aerase_iff]

theorem alookup_aerase_self {k : String} {l : List (String × α)} :
    alookup k (aerase k l) = none := by
  rw [alookup_eq_none_iff]
  intro p hp
  exact (mem_aerase_iff.mp hp).2

theorem alookup_aerase_ne {k j : String} (h : j ≠ k) {l : List (String × α)} :
    alookup j (aerase k l) = alookup j l := by
  induction l with
  | nil => rfl
  | cons p rest ih =>
    by_cases hk : p.1 = k
    · have h1 : aerase k (p :: rest) = aerase k rest := by
        simp [aerase, List.filter_cons, hk]
      have h2 : p.1 ≠ j := by rw [hk]; exact fun hh => h hh.symm
      rw [h1, ih]
      simp [alookup, h2]
    · have h1 : aerase k (p :: rest) = p :: aerase k rest := by
        simp [aerase, List.filter_cons, hk]
      rw [h1]
      simp only [alookup, ih]

theorem alookup_aset_self {k : String} {v : α} {l : List (String × α)} :
    alookup k (aset k v l) = some v := by
  simp [aset, alookup]

theorem alookup_aset_ne {k j : String} (h : j ≠ k) {v : α} {l : List (String × α)} :
    alookup j (aset k v l) = alookup j l := by
  simp only [aset, alookup]
  rw [if_neg (fun hh => h hh.symm)]
  exact alookup_aerase_ne h

theorem aerase_eq_of_alookup_none {k : String} {l : List (String × α)}
    (h : alookup k l = none) : aerase k l = l := by
  rw [alookup_eq_none_iff] at h
  exact List.filter_eq_self.mpr (fun p hp => decide_eq_true (h p hp))

theorem aerase_aset_self {k : String} {v : α} {l : List (String × α)} :
    aerase k (aset k v l) = aerase k l := by
  simp [aset, aerase, List.filter]

theorem keysNodup_aerase {k : String} {l : List (String × α)} (h : KeysNodup l) :
    KeysNodup (aerase k l) := by
  unfold KeysNodup aerase at *
  exact List.Nodup.sublist (List.Sublist.map _ (List.filter_sublist l)) h

theorem keysNodup_aset {k : String} {v : α} {l : List (String × α)} (h : KeysNodup l) :
    KeysNodup (aset k v l) := by
  unfold KeysNodup aset at *
  refine List.nodup_cons.mpr ⟨?_, keysNodup_aerase (k := k) h⟩
  intro hmem
  rcases List.mem_map.mp hmem with ⟨p, hp, hpk⟩
  exact (mem_aerase_iff.mp hp).2 hpk

theorem countKey_aset_self {k : String} {v : α} {l : List (String × α)} :
    ((aset k v l).filter (fun p => p.1 = k)).length = 1 := by
  have h0 : (aerase k l).filter (fun p => p.1 = k) = [] := by
    rw [List.filter_eq_nil_iff]
    intro p hp
    simpa using (mem_aerase_iff.mp hp).2
  simp [aset, List.filter_cons, h0]

theorem countKey_le_one_of_nodup {j : String} {l : List (String × α)} (h : KeysNodup l) :
    (l.filter (fun p => p.1 = j)).length ≤ 1 := by
  induction l with
  | nil => simp
  | cons p rest ih =>
    have h' : KeysNodup rest := by
      simp only [KeysNodup, List.map_cons, List.nodup_cons] at h
      exact h.2
    rw [List.filter_cons]
    by_cases hj : p.1 = j
    · have hnotin : rest.filter (fun p => p.1 = j) = [] := by
        rw [List.filter_eq_nil_iff]
        intro q hq
        simp only [decide_eq_true_eq]
        intro hq1
        have hmem : p.1 ∈ rest.map Prod.fst := by
          rw [hj, ← hq1]
          exact List.mem_map.mpr ⟨q, hq, rfl⟩
        simp only [KeysNodup, List.map_cons, List.nodup_cons] at h
        exact h.1 hmem
      simp [hj, hnotin]
    · simpa [hj] using ih h'

theorem mem_cancelHandle_iff {h : Nat} {t : Timer} {l : List Timer} :
    t ∈ cancelHandle h l ↔ t ∈ l ∧ t.handle ≠ h := by
  simp [cancelHandle, List.mem_filter]

theorem cancelHandle_sublist {h : Nat} {l : List Timer} :
    (cancelHandle h l).Sublist l :=
  List.filter_sublist l

end AListLemmas

theorem mem_cancelOpt_iff {o : Option Nat} {t : Timer} {l : List Timer} :
    t ∈ cancelOpt o l ↔ t ∈ l ∧ o ≠ some t.handle := by
  cases o with
  | none => simp [cancelOpt]
  | some h =>
    simp only [cancelOpt, mem_cancelHandle_iff]
    constructor
    · rintro ⟨h1, h2⟩
      exact ⟨h1, by simpa [eq_comm] using h2⟩
    · rintro ⟨h1, h2⟩
      exact ⟨h1, by simpa [eq_comm] using h2⟩

theorem cancelOpt_sublist {o : Option Nat} {l : List Timer} :
    (cancelOpt o l).Sublist l := by
  cases o with
  | none => exact List.Sublist.refl l
  | some h => exact cancelHandle_sublist

namespace SubtaskTimeoutManager

/-! ### Shape lemmas for the operations -/

theorem clearHandles_eq (id : String) (s : ManagerState) :
    clearHandles id s =
      { s with
          pending := cancelOpt (alookup id s.warnings)
            (cancelOpt (alookup id s.timeouts) s.pending),
          timeouts := aerase id s.timeouts,
          warnings := aerase id s.warnings } := by
  unfold clearHandles
  cases h1 : alookup id s.timeouts with
  | none =>
    cases h2 : alookup id s.warnings with
    | none =>
      simp only [h2, cancelOpt]
      rw [aerase_eq_of_alookup_none h1, aerase_eq_of_alookup_none h2]
    | some hw =>
      simp only [h2, cancelOpt]
      rw [aerase_eq_of_alookup_none h1]
  | some ht =>
    cases h2 : alookup id s.warnings with
    | none =>
      simp only [h2, cancelOpt]
      rw [aerase_eq_of_alookup_none h2]
    | some hw =>
      simp only [h2, cancelOpt]

theorem clearTimeout_fst_eq (id : String) (s : ManagerState) :
    (clearTimeout id s).1 =
      { clearHandles id s with statuses := aerase id s.statuses } := by
  unfold clearTimeout
  have hs : (clearHandles id s).statuses = s.statuses := by rw [clearHandles_eq]
  simp only [hs]
  cases h3 : alookup id s.statuses with
  | none =>
    simp only [h3]
    rw [aerase_eq_of_alookup_none h3, ← hs]
  | some st => simp only [h3]

theorem clearTimeout_snd (id : String) (s : ManagerState) :
    (clearTimeout id s).2 = (alookup id s.statuses).isSome := by
  unfold clearTimeout
  have hs : (clearHandles id s).statuses = s.statuses := by rw [clearHandles_eq]
  simp only [hs]
  cases h3 : alookup id s.statuses with
  | none => simp [h3]
  | some st => simp [h3]

theorem startTimeout_eq_of_not_warnGuard (id : String) (cfg : TimeoutConfig)
    (s : ManagerState) (h : ¬ warnGuard cfg) :
    startTimeout id cfg s =
      (let c := (clearTimeout id s).1
      { now := c.now, nextHandle := c.nextHandle + 1,
        pending := c.pending ++
          [{ handle := c.nextHandle, fireAt := c.now + cfg.timeoutMs, taskId := id,
             kind := TimerKind.timeoutFire }],
        timeouts := aset id c.nextHandle c.timeouts,
        warnings := c.warnings,
        statuses := aset id (freshStatus id cfg c.now) c.statuses,
        events := c.events }) := by
  unfold startTimeout
  cases hw : cfg.warningMs with
  | none => simp [schedule, freshStatus, hw]
  | some w =>
    have hng : ¬ (w ≠ 0 ∧ cfg.hasOnWarning = true) := by
      intro hc
      exact h ⟨w, hw, hc.1, hc.2⟩
    simp only [hw, if_neg hng]
    simp [schedule, freshStatus, hw]

theorem startTimeout_eq_of_warnGuard (id : String) (cfg : TimeoutConfig)
    (s : ManagerState) (w : Int) (hw : cfg.warningMs = some w) (hw0 : w ≠ 0)
    (hcb : cfg.hasOnWarning = true) :
    startTimeout id cfg s =
      (let c := (clearTimeout id s).1
      { now := c.now, nextHandle := c.nextHandle + 2,
        pending := c.pending ++
          [{ handle := c.nextHandle, fireAt := c.now + w, taskId := id,
             kind := TimerKind.startWarning cfg.timeoutMs w },
           { handle := c.nextHandle + 1, fireAt := c.now + cfg.timeoutMs, taskId := id,
             kind := TimerKind.timeoutFire }],
        timeouts := aset id (c.nextHandle + 1) c.timeouts,
        warnings := aset id c.nextHandle c.warnings,
        statuses := aset id (freshStatus id cfg c.now) c.statuses,
        events := c.events }) := by
  unfold startTimeout
  simp only [hw, if_pos (And.intro hw0 hcb)]
  simp [schedule, freshStatus, hw]

end SubtaskTimeoutManager

/-! ### The reachable-state invariant -/

namespace SubtaskTimeoutManager

theorem inv_initState : MInv initState := by
  constructor <;> simp [initState, KeysNodup]

/-- After `clearHandles id`, no pending timer belongs to `id` (assuming the
registration invariant): both of the task's registered handles were
cancelled, and every pending timer of the task carried one of them. -/
theorem clearHandles_no_id_timer {id : String} {s : ManagerState} (hInv : MInv s) :
    ∀ t ∈ (clearHandles id s).pending, t.taskId ≠ id := by
  intro t ht hid
  rw [clearHandles_eq] at ht
  simp only at ht
  rw [mem_cancelOpt_iff] at ht
  obtain ⟨ht1, hw⟩ := ht
  rw [mem_cancelOpt_iff] at ht1
  obtain ⟨ht2, hti⟩ := ht1
  rcases hInv.pending_reg t ht2 with hreg | hreg
  · rw [hid] at hreg
    exact hti hreg
  · rw [hid] at hreg
    exact hw hreg

theorem inv_clearHandles {id : String} {s : ManagerState} (hInv : MInv s) :
    MInv (clearHandles id s) := by
  rw [clearHandles_eq]
  have hpend : ∀ t ∈ cancelOpt (alookup id s.warnings)
      (cancelOpt (alookup id s.timeouts) s.pending), t ∈ s.pending := by
    intro t ht
    exact ((mem_cancelOpt_iff.mp ((mem_cancelOpt_iff.mp ht).1)).1)
  have hIdGone : ∀ t ∈ (clearHandles id s).pending, t.taskId ≠ id :=
    clearHandles_no_id_timer hInv
  rw [clearHandles_eq] at hIdGone
  simp only at hIdGone
  constructor
  case statuses_nodup => exact hInv.statuses_nodup
  case statuses_active => exact hInv.statuses_active
  case warned_sound => exact hInv.warned_sound
  case pending_lt => exact fun t ht => hInv.pending_lt t (hpend t ht)
  case timeouts_lt => exact fun p hp => hInv.timeouts_lt p (mem_aerase_iff.mp hp).1
  case warnings_lt => exact fun p hp => hInv.warnings_lt p (mem_aerase_iff.mp hp).1
  case pending_nodup =>
    exact List.Nodup.sublist
      (List.Sublist.map _ (cancelOpt_sublist.trans cancelOpt_sublist)) hInv.pending_nodup
  case owner_t =>
    intro t ht p hp hph
    exact hInv.owner_t t (hpend t ht) p (mem_aerase_iff.mp hp).1 hph
  case owner_w =>
    intro t ht p hp hph
    exact hInv.owner_w t (hpend t ht) p (mem_aerase_iff.mp hp).1 hph
  case pending_reg =>
    intro t ht
    have hne : t.taskId ≠ id := hIdGone t ht
    rw [alookup_aerase_ne hne, alookup_aerase_ne hne]
    exact hInv.pending_reg t (hpend t ht)
  case timeouts_status =>
    intro p hp
    exact hInv.timeouts_status p (mem_aerase_iff.mp hp).1
  case warnings_status =>
    intro p hp
    exact hInv.warnings_status p (mem_aerase_iff.mp hp).1
  case warn_timer_sound =>
    intro t ht hk st hst
    exact hInv.warn_timer_sound t (hpend t ht) hk st hst

theorem inv_clearTimeout {id : String} {s : ManagerState} (hInv : MInv s) :
    MInv (clearTimeout id s).1 := by
  rw [clearTimeout_fst_eq]
  have hch := @inv_clearHandles id s hInv
  have hIdGone := @clearHandles_no_id_timer id s hInv
  have hstat : (clearHandles id s).statuses = s.statuses := by rw [clearHandles_eq]
  constructor
  case statuses_nodup => exact keysNodup_aerase hInv.statuses_nodup
  case statuses_active =>
    exact fun p hp => hInv.statuses_active p (mem_aerase_iff.mp hp).1
  case warned_sound =>
    intro p hp hw
    have := hInv.warned_sound p (mem_aerase_iff.mp hp).1 hw
    simpa [clearHandles_eq] using this
  case pending_lt => exact hch.pending_lt
  case timeouts_lt => exact hch.timeouts_lt
  case warnings_lt => exact hch.warnings_lt
  case pending_nodup => exact hch.pending_nodup
  case owner_t => exact hch.owner_t
  case owner_w => exact hch.owner_w
  case pending_reg => exact hch.pending_reg
  case timeouts_status =>
    intro p hp
    have hp' := hp
    rw [clearHandles_eq] at hp'
    simp only at hp'
    have hne : p.1 ≠ id := (mem_aerase_iff.mp hp').2
    rw [alookup_aerase_ne hne]
    have := hch.timeouts_status p hp
    rwa [hstat] at this
  case warnings_status =>
    intro p hp
    have hp' := hp
    rw [clearHandles_eq] at hp'
    simp only at hp'
    have hne : p.1 ≠ id := (mem_aerase_iff.mp hp').2
    rw [alookup_aerase_ne hne]
    have := hch.warnings_status p hp
    rwa [hstat] at this
  case warn_timer_sound =>
    intro t ht hk st hst
    have hne : t.taskId ≠ id := hIdGone t ht
    rw [alookup_aerase_ne hne] at hst
    rw [← hstat] at hst
    exact hch.warn_timer_sound t ht hk st hst

end SubtaskTimeoutManager

namespace SubtaskTimeoutManager

/-- Overwriting (or inserting) the status of `id` preserves the invariant
provided the new record is active, its `hasWarned` flag is justified, and
any pending warning timer of `id` fires no earlier than the new record's
warning point. -/
theorem inv_set_status {s : ManagerState} (hInv : MInv s) (id : String) (st : TimeoutStatus)
    (hact : st.isActive = true)
    (hwarn : st.hasWarned = true → ∃ w, st.warningMs = some w ∧ w ≠ 0 ∧ st.startTime + w ≤ s.now)
    (hwts : ∀ t ∈ s.pending, t.kind ≠ TimerKind.timeoutFire → t.taskId = id →
      ∃ w, st.warningMs = some w ∧ w ≠ 0 ∧ st.startTime + w ≤ t.fireAt) :
    MInv { s with statuses := aset id st s.statuses } := by
  constructor
  case statuses_nodup => exact keysNodup_aset hInv.statuses_nodup
  case statuses_active =>
    intro p hp
    rcases mem_aset_iff.mp hp with h | ⟨h, _⟩
    · rw [h]; exact hact
    · exact hInv.statuses_active p h
  case warned_sound =>
    intro p hp hw
    rcases mem_aset_iff.mp hp with h | ⟨h, _⟩
    · rw [h] at hw ⊢; exact hwarn hw
    · exact hInv.warned_sound p h hw
  case pending_lt => exact hInv.pending_lt
  case timeouts_lt => exact hInv.timeouts_lt
  case warnings_lt => exact hInv.warnings_lt
  case pending_nodup => exact hInv.pending_nodup
  case owner_t => exact hInv.owner_t
  case owner_w => exact hInv.owner_w
  case pending_reg => exact hInv.pending_reg
  case timeouts_status =>
    intro p hp
    by_cases hpid : p.1 = id
    · rw [hpid, alookup_aset_self]; rfl
    · rw [alookup_aset_ne hpid]; exact hInv.timeouts_status p hp
  case warnings_status =>
    intro p hp
    by_cases hpid : p.1 = id
    · rw [hpid, alookup_aset_self]; rfl
    · rw [alookup_aset_ne hpid]; exact hInv.warnings_status p hp
  case warn_timer_sound =>
    intro t ht hk st' hst'
    by_cases htid : t.taskId = id
    · rw [htid, alookup_aset_self] at hst'
      injection hst' with h
      rw [← h]
      exact hwts t ht hk htid
    · rw [alookup_aset_ne htid] at hst'
      exact hInv.warn_timer_sound t ht hk st' hst'

/-- Scheduling a fresh timeout timer for `id` and registering its handle in
the `timeouts` map preserves the invariant, provided `id` has a status and
every pending timer of `id` is registered in the `warnings` map (so that
overwriting the `timeouts` entry orphans nothing). -/
theorem inv_add_timeout_timer {s : ManagerState} (hInv : MInv s) (id : String) (delay : Int)
    (hstat : (alookup id s.statuses).isSome = true)
    (hNoIdT : ∀ t ∈ s.pending, t.taskId = id → alookup id s.warnings = some t.handle) :
    MInv { s with
      pending := s.pending ++
        [{ handle := s.nextHandle, fireAt := s.now + delay, taskId := id,
           kind := TimerKind.timeoutFire }],
      nextHandle := s.nextHandle + 1,
      timeouts := aset id s.nextHandle s.timeouts } := by
  constructor
  case statuses_nodup => exact hInv.statuses_nodup
  case statuses_active => exact hInv.statuses_active
  case warned_sound => exact hInv.warned_sound
  case pending_lt =>
    intro t ht
    rcases List.mem_append.mp ht with h | h
    · exact Nat.lt_succ_of_lt (hInv.pending_lt t h)
    · rw [List.mem_singleton] at h; rw [h]; exact Nat.lt_succ_self _
  case timeouts_lt =>
    intro p hp
    rcases mem_aset_iff.mp hp with h | ⟨h, _⟩
    · rw [h]; exact Nat.lt_succ_self _
    · exact Nat.lt_succ_of_lt (hInv.timeouts_lt p h)
  case warnings_lt =>
    intro p hp
    exact Nat.lt_succ_of_lt (hInv.warnings_lt p hp)
  case pending_nodup =>
    rw [List.map_append]
    rw [List.nodup_append]
    refine ⟨hInv.pending_nodup, List.nodup_singleton _, ?_⟩
    intro h hh
    simp only [List.map_cons, List.map_nil, List.mem_singleton] at *
    intro hc
    rcases List.mem_map.mp hh with ⟨t, ht, hth⟩
    rw [hc] at hth
    exact absurd hth (Nat.ne_of_lt (hInv.pending_lt t ht))
  case owner_t =>
    intro t ht p hp hph
    rcases List.mem_append.mp ht with h | h
    · rcases mem_aset_iff.mp hp with h2 | ⟨h2, _⟩
      · exfalso
        rw [h2] at hph
        simp only at hph
        exact absurd hph.symm (Nat.ne_of_lt (hInv.pending_lt t h))
      · exact hInv.owner_t t h p h2 hph
    · rw [List.mem_singleton] at h
      rcases mem_aset_iff.mp hp with h2 | ⟨h2, _⟩
      · rw [h, h2]; exact ⟨rfl, rfl⟩
      · exfalso
        rw [h] at hph
        simp only at hph
        exact absurd hph (Nat.ne_of_lt (hInv.timeouts_lt p h2))
  case owner_w =>
    intro t ht p hp hph
    rcases List.mem_append.mp ht with h | h
    · exact hInv.owner_w t h p hp hph
    · exfalso
      rw [List.mem_singleton] at h
      rw [h] at hph
      simp only at hph
      exact absurd hph (Nat.ne_of_lt (hInv.warnings_lt p hp))
  case pending_reg =>
    intro t ht
    rcases List.mem_append.mp ht with h | h
    · by_cases htid : t.taskId = id
      · right
        rw [htid]
        exact hNoIdT t h htid
      · rw [alookup_aset_ne htid]
        exact hInv.pending_reg t h
    · rw [List.mem_singleton] at h
      rw [h]
      left
      simp only
      exact alookup_aset_self
  case timeouts_status =>
    intro p hp
    rcases mem_aset_iff.mp hp with h | ⟨h, _⟩
    · rw [h]; exact hstat
    · exact hInv.timeouts_status p h
  case warnings_status => exact hInv.warnings_status
  case warn_timer_sound =>
    intro t ht hk st hst
    rcases List.mem_append.mp ht with h | h
    · exact hInv.warn_timer_sound t h hk st hst
    · exfalso
      rw [List.mem_singleton] at h
      rw [h] at hk
      exact hk rfl

/-- Scheduling a fresh warning timer for `id` and registering its handle in
the `warnings` map preserves the invariant, provided no pending timer
belongs to `id`, `id`'s status exists, and the timer fires no earlier than
the status's warning point. -/
theorem inv_add_warning_timer {s : ManagerState} (hInv : MInv s) (id : String) (delay : Int)
    (k : TimerKind) (st : TimeoutStatus)
    (hk : k ≠ TimerKind.timeoutFire)
    (hstat : alookup id s.statuses = some st)
    (hNoId : ∀ t ∈ s.pending, t.taskId ≠ id)
    (hsound : ∃ w, st.warningMs = some w ∧ w ≠ 0 ∧ st.startTime + w ≤ s.now + delay) :
    MInv { s with
      pending := s.pending ++
        [{ handle := s.nextHandle, fireAt := s.now + delay, taskId := id, kind := k }],
      nextHandle := s.nextHandle + 1,
      warnings := aset id s.nextHandle s.warnings } := by
  constructor
  case statuses_nodup => exact hInv.statuses_nodup
  case statuses_active => exact hInv.statuses_active
  case warned_sound => exact hInv.warned_sound
  case pending_lt =>
    intro t ht
    rcases List.mem_append.mp ht with h | h
    · exact Nat.lt_succ_of_lt (hInv.pending_lt t h)
    · rw [List.mem_singleton] at h; rw [h]; exact Nat.lt_succ_self _
  case timeouts_lt =>
    intro p hp
    exact Nat.lt_succ_of_lt (hInv.timeouts_lt p hp)
  case warnings_lt =>
    intro p hp
    rcases mem_aset_iff.mp hp with h | ⟨h, _⟩
    · rw [h]; exact Nat.lt_succ_self _
    · exact Nat.lt_succ_of_lt (hInv.warnings_lt p h)
  case pending_nodup =>
    rw [List.map_append, List.nodup_append]
    refine ⟨hInv.pending_nodup, List.nodup_singleton _, ?_⟩
    intro h hh
    simp only [List.map_cons, List.map_nil, List.mem_singleton] at *
    intro hc
    rcases List.mem_map.mp hh with ⟨t, ht, hth⟩
    rw [hc] at hth
    exact absurd hth (Nat.ne_of_lt (hInv.pending_lt t ht))
  case owner_t =>
    intro t ht p hp hph
    rcases List.mem_append.mp ht with h | h
    · exact hInv.owner_t t h p hp hph
    · exfalso
      rw [List.mem_singleton] at h
      rw [h] at hph
      simp only at hph
      exact absurd hph (Nat.ne_of_lt (hInv.timeouts_lt p hp))
  case owner_w =>
    intro t ht p hp hph
    rcases List.mem_append.mp ht with h | h
    · rcases mem_aset_iff.mp hp with h2 | ⟨h2, _⟩
      · exfalso
        rw [h2] at hph
        simp only at hph
        exact absurd hph.symm (Nat.ne_of_lt (hInv.pending_lt t h))
      · exact hInv.owner_w t h p h2 hph
    · rw [List.mem_singleton] at h
      rcases mem_aset_iff.mp hp with h2 | ⟨h2, _⟩
      · rw [h, h2]
        exact ⟨rfl, hk⟩
      · exfalso
        rw [h] at hph
        simp only at hph
        exact absurd hph (Nat.ne_of_lt (hInv.warnings_lt p h2))
  case pending_reg =>
    intro t ht
    rcases List.mem_append.mp ht with h | h
    · have htid : t.taskId ≠ id := hNoId t h
      rw [alookup_aset_ne htid]
      exact hInv.pending_reg t h
    · rw [List.mem_singleton] at h
      rw [h]
      right
      simp only
      exact alookup_aset_self
  case timeouts_status => exact hInv.timeouts_status
  case warnings_status =>
    intro p hp
    rcases mem_aset_iff.mp hp with h | ⟨h, _⟩
    · rw [h]
      simp only
      rw [hstat]
      rfl
    · exact hInv.warnings_status p h
  case warn_timer_sound =>
    intro t ht hk' st' hst'
    rcases List.mem_append.mp ht with h | h
    · exact hInv.warn_timer_sound t h hk' st' hst'
    · rw [List.mem_singleton] at h
      rw [h] at hst' ⊢
      simp only at hst' ⊢
      rw [hstat] at hst'
      injection hst' with hss
      rw [← hss]
      exact hsound

end SubtaskTimeoutManager

namespace SubtaskTimeoutManager

theorem inv_startTimeout {id : String} {cfg : TimeoutConfig} {s : ManagerState}
    (hInv : MInv s) : MInv (startTimeout id cfg s) := by
  have hcInv := @inv_clearTimeout id s hInv
  have hIdGone : ∀ t ∈ (clearTimeout id s).1.pending, t.taskId ≠ id := by
    rw [clearTimeout_fst_eq]
    exact clearHandles_no_id_timer hInv
  by_cases hg : warnGuard cfg
  · obtain ⟨w, hw, hw0, hcb⟩ := hg
    rw [startTimeout_eq_of_warnGuard id cfg s w hw hw0 hcb]
    have h2 := inv_set_status hcInv id (freshStatus id cfg (clearTimeout id s).1.now)
      rfl
      (by intro hcon; simp [freshStatus] at hcon)
      (by intro t ht _ htid; exact absurd htid (hIdGone t ht))
    have h3 := inv_add_warning_timer h2 id w (TimerKind.startWarning cfg.timeoutMs w)
      (freshStatus id cfg (clearTimeout id s).1.now)
      (by intro hcon; cases hcon)
      (by simp only; exact alookup_aset_self)
      (by intro t ht; exact hIdGone t ht)
      ⟨w, by simp [freshStatus, hw], hw0, by simp [freshStatus]⟩
    have h4 := inv_add_timeout_timer h3 id cfg.timeoutMs
      (by simp only; rw [alookup_aset_self]; rfl)
      (by
        intro t ht htid
        simp only at ht ⊢
        rcases List.mem_append.mp ht with h | h
        · exact absurd htid (hIdGone t h)
        · rw [List.mem_singleton] at h
          rw [h]
          exact alookup_aset_self)
    convert h4 using 1
    simp [List.append_assoc]
  · rw [startTimeout_eq_of_not_warnGuard id cfg s hg]
    have h2 := inv_set_status hcInv id (freshStatus id cfg (clearTimeout id s).1.now)
      rfl
      (by intro hcon; simp [freshStatus] at hcon)
      (by intro t ht _ htid; exact absurd htid (hIdGone t ht))
    have h3 := inv_add_timeout_timer h2 id cfg.timeoutMs
      (by simp only; rw [alookup_aset_self]; rfl)
      (by
        intro t ht htid
        simp only at ht
        exact absurd htid (hIdGone t ht))
    exact h3

end SubtaskTimeoutManager

namespace SubtaskTimeoutManager

theorem inv_set_events {s : ManagerState} (hInv : MInv s) (evs : List Event) :
    MInv { s with events := evs } := by
  cases hInv
  constructor <;> assumption

theorem hasWarnedRecompute_sound {e : Int} {w? : Option Int}
    (h : hasWarnedRecompute e w? = true) :
    ∃ w, w? = some w ∧ w ≠ 0 ∧ w ≤ e := by
  cases w? with
  | none => simp [hasWarnedRecompute] at h
  | some w =>
    refine ⟨w, rfl, ?_, ?_⟩
    · intro h0
      rw [h0] at h
      simp [hasWarnedRecompute] at h
    · by_cases h0 : w = 0
      · rw [h0] at h; simp [hasWarnedRecompute] at h
      · simpa [hasWarnedRecompute, h0] using h

theorem clearHandles_now_eq (id : String) (s : ManagerState) :
    (clearHandles id s).now = s.now := by
  rw [clearHandles_eq]


end SubtaskTimeoutManager

namespace SubtaskTimeoutManager

theorem extendTimeout_eq_absent (id : String) (d : Int) (cfg? : Option TimeoutConfig)
    (s : ManagerState) (h : alookup id s.statuses = none) :
    extendTimeout id d cfg? s = (s, false) := by
  unfold extendTimeout
  rw [h]

theorem extendTimeout_eq_inactive (id : String) (d : Int) (cfg? : Option TimeoutConfig)
    (s : ManagerState) (st : TimeoutStatus) (h : alookup id s.statuses = some st)
    (ha : st.isActive = false) :
    extendTimeout id d cfg? s = (s, false) := by
  unfold extendTimeout
  rw [h]
  simp [ha]

theorem extendTimeout_eq_clamp_none (id : String) (d : Int) (s : ManagerState)
    (st : TimeoutStatus) (h : alookup id s.statuses = some st) (ha : st.isActive = true)
    (hcl : st.timeoutMs + d - ((clearHandles id s).now - st.startTime) < 60000) :
    extendTimeout id d none s =
      ({ clearHandles id s with
          statuses := aset id
            (extendStatus st ((clearHandles id s).now - st.startTime + 60000)
              ((clearHandles id s).now - st.startTime))
            (clearHandles id s).statuses }, true) := by
  unfold extendTimeout
  rw [h]
  simp only [ha, extendStatus]
  rw [if_neg (by simp)]
  rw [if_pos hcl]

theorem extendTimeout_eq_clamp_some (id : String) (d : Int) (s : ManagerState)
    (st : TimeoutStatus) (cfg : TimeoutConfig) (h : alookup id s.statuses = some st)
    (ha : st.isActive = true)
    (hcl : st.timeoutMs + d - ((clearHandles id s).now - st.startTime) < 60000) :
    extendTimeout id d (some cfg) s =
      (let x := clearHandles id s
       let e := x.now - st.startTime
       ({ now := x.now, nextHandle := x.nextHandle + 1,
          pending := x.pending ++
            [{ handle := x.nextHandle, fireAt := x.now + 60000, taskId := id,
               kind := TimerKind.timeoutFire }],
          timeouts := aset id x.nextHandle x.timeouts,
          warnings := x.warnings,
          statuses := aset id (extendStatus st (e + 60000) e) x.statuses,
          events := if cfg.hasOnExtended = true
            then x.events ++ [Event.extendedFired id (e + 60000)] else x.events }, true)) := by
  unfold extendTimeout
  rw [h]
  simp only [ha, extendStatus]
  rw [if_neg (by simp)]
  rw [if_pos hcl]
  by_cases hoe : cfg.hasOnExtended = true
  · simp [schedule, hoe]
  · simp [schedule, hoe]

theorem extendTimeout_eq_noclamp_none (id : String) (d : Int) (s : ManagerState)
    (st : TimeoutStatus) (h : alookup id s.statuses = some st) (ha : st.isActive = true)
    (hncl : ¬ st.timeoutMs + d - ((clearHandles id s).now - st.startTime) < 60000) :
    extendTimeout id d none s =
      ({ clearHandles id s with
          statuses := aset id
            (extendStatus st (st.timeoutMs + d) ((clearHandles id s).now - st.startTime))
            (clearHandles id s).statuses }, true) := by
  unfold extendTimeout
  rw [h]
  simp only [ha, extendStatus]
  rw [if_neg (by simp)]
  rw [if_neg hncl]

theorem extendTimeout_eq_noclamp_some_warn (id : String) (d : Int) (s : ManagerState)
    (st : TimeoutStatus) (cfg : TimeoutConfig) (w : Int)
    (h : alookup id s.statuses = some st) (ha : st.isActive = true)
    (hncl : ¬ st.timeoutMs + d - ((clearHandles id s).now - st.startTime) < 60000)
    (hw : st.warningMs = some w) (hw0 : w ≠ 0)
    (hlt : (clearHandles id s).now - st.startTime < w)
    (hcb : cfg.hasOnWarning = true) :
    extendTimeout id d (some cfg) s =
      (let x := clearHandles id s
       let e := x.now - st.startTime
       ({ now := x.now, nextHandle := x.nextHandle + 2,
          pending := x.pending ++
            [{ handle := x.nextHandle, fireAt := x.now + (w - e), taskId := id,
               kind := TimerKind.extendWarning },
             { handle := x.nextHandle + 1, fireAt := x.now + (st.timeoutMs + d - e),
               taskId := id, kind := TimerKind.timeoutFire }],
          timeouts := aset id (x.nextHandle + 1) x.timeouts,
          warnings := aset id x.nextHandle x.warnings,
          statuses := aset id (extendStatus st (st.timeoutMs + d) e) x.statuses,
          events := if cfg.hasOnExtended = true
            then x.events ++ [Event.extendedFired id (st.timeoutMs + d)] else x.events },
        true)) := by
  have hmax : max 0 (w - ((clearHandles id s).now - st.startTime)) =
      w - ((clearHandles id s).now - st.startTime) :=
    max_eq_right (by omega)
  have hrec : hasWarnedRecompute ((clearHandles id s).now - st.startTime) (some w)
      = false := by
    show (if w = 0 then false
      else decide (w ≤ (clearHandles id s).now - st.startTime)) = false
    rw [if_neg hw0]
    simp only [decide_eq_false_iff_not]
    omega
  have hpos : 0 < w - ((clearHandles id s).now - st.startTime) := by omega
  have hne : w - ((clearHandles id s).now - st.startTime) ≠ 0 := by omega
  unfold extendTimeout
  rw [h]
  simp only [ha, extendStatus]
  rw [if_neg (by simp)]
  rw [if_neg hncl]
  by_cases hoe : cfg.hasOnExtended = true
  · simp [schedule, hw, hw0, hrec, hmax, hpos, hne, hcb, hoe]
  · simp [schedule, hw, hw0, hrec, hmax, hpos, hne, hcb, hoe]

end SubtaskTimeoutManager

namespace SubtaskTimeoutManager

theorem extendTimeout_eq_noclamp_some_nowarn (id : String) (d : Int) (s : ManagerState)
    (st : TimeoutStatus) (cfg : TimeoutConfig)
    (h : alookup id s.statuses = some st) (ha : st.isActive = true)
    (hncl : ¬ st.timeoutMs + d - ((clearHandles id s).now - st.startTime) < 60000)
    (hng : ∀ w, st.warningMs = some w →
      w = 0 ∨ ¬ ((clearHandles id s).now - st.startTime < w) ∨ cfg.hasOnWarning = false) :
    extendTimeout id d (some cfg) s =
      (let x := clearHandles id s
       let e := x.now - st.startTime
       ({ now := x.now, nextHandle := x.nextHandle + 1,
          pending := x.pending ++
            [{ handle := x.nextHandle, fireAt := x.now + (st.timeoutMs + d - e),
               taskId := id, kind := TimerKind.timeoutFire }],
          timeouts := aset id x.nextHandle x.timeouts,
          warnings := x.warnings,
          statuses := aset id (extendStatus st (st.timeoutMs + d) e) x.statuses,
          events := if cfg.hasOnExtended = true
            then x.events ++ [Event.extendedFired id (st.timeoutMs + d)] else x.events },
        true)) := by
  unfold extendTimeout
  rw [h]
  simp only [ha, extendStatus]
  rw [if_neg (by simp)]
  rw [if_neg hncl]
  cases hwm : st.warningMs with
  | none =>
    by_cases hoe : cfg.hasOnExtended = true
    · simp [schedule, hwm, hoe]
    · simp [schedule, hwm, hoe]
  | some w =>
    by_cases hw0 : w = 0
    · subst hw0
      by_cases hoe : cfg.hasOnExtended = true
      · simp [schedule, hwm, hoe]
      · simp [schedule, hwm, hoe]
    · have hgneg : ¬ (max 0 (w - ((clearHandles id s).now - st.startTime)) ≠ 0 ∧
          0 < max 0 (w - ((clearHandles id s).now - st.startTime)) ∧
          cfg.hasOnWarning = true ∧
          hasWarnedRecompute ((clearHandles id s).now - st.startTime) (some w) = false) := by
        rcases hng w hwm with hc | hc | hc
        · exact absurd hc hw0
        · intro hcon
          exact hcon.1 (max_eq_left (by omega))
        · intro hcon
          rw [hc] at hcon
          exact absurd hcon.2.2.1 (by simp)
      by_cases hoe : cfg.hasOnExtended = true
      · simp only [hwm, if_neg hw0]
        rw [if_neg hgneg]
        simp [schedule, hoe]
      · simp only [hwm, if_neg hw0]
        rw [if_neg hgneg]
        simp [schedule, hoe]

end SubtaskTimeoutManager

namespace SubtaskTimeoutManager

theorem inv_extendTimeout {id : String} {d : Int} {cfg? : Option TimeoutConfig}
    {s : ManagerState} (hInv : MInv s) : MInv (extendTimeout id d cfg? s).1 := by
  cases h : alookup id s.statuses with
  | none =>
    rw [extendTimeout_eq_absent id d cfg? s h]
    exact hInv
  | some st =>
    cases haB : st.isActive with
    | false =>
      rw [extendTimeout_eq_inactive id d cfg? s st h haB]
      exact hInv
    | true =>
      have hx := @inv_clearHandles id s hInv
      have hIdGone := @clearHandles_no_id_timer id s hInv
      have hset : ∀ tms, MInv { clearHandles id s with
          statuses := aset id (extendStatus st tms ((clearHandles id s).now - st.startTime))
            (clearHandles id s).statuses } := by
        intro tms
        refine inv_set_status hx id _ haB ?_ ?_
        · intro hww
          obtain ⟨w, hw1, hw2, hw3⟩ := hasWarnedRecompute_sound hww
          refine ⟨w, hw1, hw2, ?_⟩
          simp only [extendStatus]
          omega
        · intro t ht _ htid
          exact absurd htid (hIdGone t ht)
      cases cfg? with
      | none =>
        by_cases hcl : st.timeoutMs + d - ((clearHandles id s).now - st.startTime) < 60000
        · rw [extendTimeout_eq_clamp_none id d s st h haB hcl]
          exact hset _
        · rw [extendTimeout_eq_noclamp_none id d s st h haB hcl]
          exact hset _
      | some cfg =>
        by_cases hcl : st.timeoutMs + d - ((clearHandles id s).now - st.startTime) < 60000
        · rw [extendTimeout_eq_clamp_some id d s st cfg h haB hcl]
          have h4 := inv_add_timeout_timer (hset ((clearHandles id s).now - st.startTime + 60000))
            id 60000
            (by simp only; rw [alookup_aset_self]; rfl)
            (by
              intro t ht htid
              simp only at ht
              exact absurd htid (hIdGone t ht))
          exact inv_set_events h4 _
        · by_cases hg : ∃ w, st.warningMs = some w ∧ w ≠ 0 ∧
              (clearHandles id s).now - st.startTime < w ∧ cfg.hasOnWarning = true
          · obtain ⟨w, hw, hw0, hlt, hcb⟩ := hg
            rw [extendTimeout_eq_noclamp_some_warn id d s st cfg w h haB hcl hw hw0 hlt hcb]
            have h3 := inv_add_warning_timer (hset (st.timeoutMs + d)) id
              (w - ((clearHandles id s).now - st.startTime)) TimerKind.extendWarning
              (extendStatus st (st.timeoutMs + d) ((clearHandles id s).now - st.startTime))
              (by intro hcon; cases hcon)
              (by simp only; exact alookup_aset_self)
              (by intro t ht; exact hIdGone t ht)
              (by
                refine ⟨w, by simp [extendStatus, hw], hw0, ?_⟩
                simp only [extendStatus]
                omega)
            have h4 := inv_add_timeout_timer h3 id
              (st.timeoutMs + d - ((clearHandles id s).now - st.startTime))
              (by simp only; rw [alookup_aset_self]; rfl)
              (by
                intro t ht htid
                simp only at ht ⊢
                rcases List.mem_append.mp ht with hmem | hmem
                · exact absurd htid (hIdGone t hmem)
                · rw [List.mem_singleton] at hmem
                  rw [hmem]
                  exact alookup_aset_self)
            have h5 := inv_set_events h4
              (if cfg.hasOnExtended = true
                then (clearHandles id s).events ++ [Event.extendedFired id (st.timeoutMs + d)]
                else (clearHandles id s).events)
            convert h5 using 1
            simp [List.append_assoc]
          · rw [extendTimeout_eq_noclamp_some_nowarn id d s st cfg h haB hcl (by
              intro w hw
              by_cases h1 : w = 0
              · exact Or.inl h1
              by_cases h2 : (clearHandles id s).now - st.startTime < w
              · by_cases h3 : cfg.hasOnWarning = true
                · exact absurd ⟨w, hw, h1, h2, h3⟩ hg
                · rw [Bool.not_eq_true] at h3
                  exact Or.inr (Or.inr h3)
              · exact Or.inr (Or.inl h2))]
            have h4 := inv_add_timeout_timer (hset (st.timeoutMs + d)) id
              (st.timeoutMs + d - ((clearHandles id s).now - st.startTime))
              (by simp only; rw [alookup_aset_self]; rfl)
              (by
                intro t ht htid
                simp only at ht
                exact absurd htid (hIdGone t ht))
            exact inv_set_events h4 _

end SubtaskTimeoutManager

namespace SubtaskTimeoutManager

theorem fireTimer_eq_timeout {t : Timer} {s : ManagerState} {st : TimeoutStatus}
    (hk : t.kind = TimerKind.timeoutFire)
    (h : alookup t.taskId s.statuses = some st) (ha : st.isActive = true) :
    fireTimer t s =
      { (clearTimeout t.taskId s).1 with
          events := s.events ++ [Event.timeoutFired t.taskId] } := by
  unfold fireTimer
  rw [hk]
  simp only [h, ha, if_pos rfl]
  rw [clearTimeout_fst_eq, clearTimeout_fst_eq]
  rw [clearHandles_eq, clearHandles_eq]
  simp [aerase_aset_self]

theorem inv_raise_now {s : ManagerState} (hInv : MInv s) {n : Int} (hn : s.now ≤ n) :
    MInv { s with now := n } := by
  cases hInv with
  | mk f1 f2 f3 f4 f5 f6 f7 f8 f9 f10 f11 f12 f13 =>
    constructor <;> try assumption
    intro p hp hw
    obtain ⟨w, hw1, hw2, hw3⟩ := f3 p hp hw
    exact ⟨w, hw1, hw2, le_trans hw3 hn⟩

theorem inv_cancel_pending {s : ManagerState} (hInv : MInv s) (h : Nat) :
    MInv { s with pending := cancelHandle h s.pending } := by
  have hsub : ∀ t ∈ cancelHandle h s.pending, t ∈ s.pending :=
    fun t ht => (mem_cancelHandle_iff.mp ht).1
  cases hInv with
  | mk f1 f2 f3 f4 f5 f6 f7 f8 f9 f10 f11 f12 f13 =>
    constructor <;> try assumption
    case pending_lt => exact fun t ht => f4 t (hsub t ht)
    case pending_nodup =>
      exact List.Nodup.sublist (List.Sublist.map _ cancelHandle_sublist) f7
    case owner_t => exact fun t ht => f8 t (hsub t ht)
    case owner_w => exact fun t ht => f9 t (hsub t ht)
    case pending_reg => exact fun t ht => f10 t (hsub t ht)
    case warn_timer_sound => exact fun t ht => f13 t (hsub t ht)

theorem inv_fireTimer {t : Timer} {s : ManagerState} (hInv : MInv s)
    (hts : ∀ st, alookup t.taskId s.statuses = some st → t.kind ≠ TimerKind.timeoutFire →
      ∃ w, st.warningMs = some w ∧ w ≠ 0 ∧ st.startTime + w ≤ s.now) :
    MInv (fireTimer t s) := by
  have hwfire : ∀ (cont : TimeoutStatus → ManagerState) ,
      (∀ st, alookup t.taskId s.statuses = some st →
        st.isActive = true → st.hasWarned = false → MInv (cont st)) →
      MInv (match alookup t.taskId s.statuses with
        | some st => if st.isActive = true ∧ st.hasWarned = false then cont st else s
        | none => s) := by
    intro cont hc
    cases h : alookup t.taskId s.statuses with
    | none => exact hInv
    | some st =>
      show MInv (if st.isActive = true ∧ st.hasWarned = false then cont st else s)
      by_cases hcond : st.isActive = true ∧ st.hasWarned = false
      · rw [if_pos hcond]
        exact hc st h hcond.1 hcond.2
      · rw [if_neg hcond]
        exact hInv
  cases hk : t.kind with
  | timeoutFire =>
    cases h : alookup t.taskId s.statuses with
    | none =>
      unfold fireTimer
      rw [hk]
      simp only [h]
      exact hInv
    | some st =>
      cases haB : st.isActive with
      | false =>
        unfold fireTimer
        rw [hk]
        simp only [h, haB]
        exact hInv
      | true =>
        rw [fireTimer_eq_timeout hk h haB]
        exact inv_set_events (inv_clearTimeout hInv) _
  | startWarning cfgT cfgW =>
    unfold fireTimer
    rw [hk]
    refine hwfire _ ?_
    intro st h hact hwn
    refine inv_set_events ?_ _
    refine inv_set_status hInv t.taskId _ hact ?_ ?_
    · intro _
      exact hts st h (by rw [hk]; intro hcon; cases hcon)
    · intro t' ht' hk' htid'
      have := hInv.warn_timer_sound t' ht' hk' st (by rw [htid']; exact h)
      exact this
  | extendWarning =>
    unfold fireTimer
    rw [hk]
    refine hwfire _ ?_
    intro st h hact hwn
    refine inv_set_events ?_ _
    refine inv_set_status hInv t.taskId _ hact ?_ ?_
    · intro _
      exact hts st h (by rw [hk]; intro hcon; cases hcon)
    · intro t' ht' hk' htid'
      exact hInv.warn_timer_sound t' ht' hk' st (by rw [htid']; exact h)

end SubtaskTimeoutManager

namespace SubtaskTimeoutManager

theorem pickNext_eq_foldl (endT : Int) (l : List Timer) :
    pickNext endT l = l.foldl (pickStep endT) none := rfl

theorem pickStep_some {endT : Int} {acc : Option Timer} {t b : Timer}
    (h : pickStep endT acc t = some b) :
    acc = some b ∨ (b = t ∧ t.fireAt ≤ endT) := by
  unfold pickStep at h
  by_cases hf : t.fireAt ≤ endT
  · cases acc with
    | none =>
      simp only [hf, if_true] at h
      injection h with hh
      exact Or.inr ⟨hh.symm, hf⟩
    | some c =>
      simp only [hf, if_true] at h
      by_cases hb : betterTimer t c
      · rw [if_pos hb] at h
        injection h with hh
        exact Or.inr ⟨hh.symm, hf⟩
      · rw [if_neg hb] at h
        exact Or.inl h
  · rw [if_neg hf] at h
    exact Or.inl h

theorem pickNext_go_spec (endT : Int) :
    ∀ (l : List Timer) (acc : Option Timer) (t : Timer),
      l.foldl (pickStep endT) acc = some t →
      acc = some t ∨ (t ∈ l ∧ t.fireAt ≤ endT) := by
  intro l
  induction l with
  | nil =>
    intro acc t h
    exact Or.inl h
  | cons x xs ih =>
    intro acc t h
    rw [List.foldl_cons] at h
    rcases ih _ t h with hacc | hmem
    · rcases pickStep_some hacc with h2 | ⟨h2, h3⟩
      · exact Or.inl h2
      · exact Or.inr ⟨by rw [h2]; exact List.mem_cons_self x xs, by rw [h2]; exact h3⟩
    · exact Or.inr ⟨List.mem_cons_of_mem x hmem.1, hmem.2⟩

theorem pickNext_mem {endT : Int} {l : List Timer} {t : Timer}
    (h : pickNext endT l = some t) : t ∈ l ∧ t.fireAt ≤ endT := by
  rw [pickNext_eq_foldl] at h
  rcases pickNext_go_spec endT l none t h with hc | hc
  · cases hc
  · exact hc

theorem pickStep_of_some {endT : Int} {b : Timer} (t : Timer) :
    ∃ c, pickStep endT (some b) t = some c := by
  unfold pickStep
  by_cases hf : t.fireAt ≤ endT
  · by_cases hb : betterTimer t b
    · exact ⟨t, by simp only [hf, if_true]; rw [if_pos hb]⟩
    · exact ⟨b, by simp only [hf, if_true]; rw [if_neg hb]⟩
  · rw [if_neg hf]
    exact ⟨b, rfl⟩

theorem foldl_pickStep_some (endT : Int) :
    ∀ (l : List Timer) (b : Timer),
      ∃ c, l.foldl (pickStep endT) (some b) = some c := by
  intro l
  induction l with
  | nil => intro b; exact ⟨b, rfl⟩
  | cons x xs ih =>
    intro b
    rw [List.foldl_cons]
    obtain ⟨c, hc⟩ := @pickStep_of_some endT b x
    rw [hc]
    exact ih c

theorem pickNext_eq_none {endT : Int} {l : List Timer}
    (h : pickNext endT l = none) : ∀ t ∈ l, ¬ t.fireAt ≤ endT := by
  rw [pickNext_eq_foldl] at h
  intro t ht hf
  induction l generalizing t with
  | nil => cases ht
  | cons x xs ih =>
    rw [List.foldl_cons] at h
    rcases List.mem_cons.mp ht with h1 | h1
    · by_cases hx : x.fireAt ≤ endT
      · have : pickStep endT none x = some x := by
          unfold pickStep
          rw [if_pos hx]
        rw [this] at h
        obtain ⟨c, hc⟩ := foldl_pickStep_some endT xs x
        rw [hc] at h
        cases h
      · rw [h1] at hf
        exact hx hf
    · by_cases hx : x.fireAt ≤ endT
      · have : pickStep endT none x = some x := by
          unfold pickStep
          rw [if_pos hx]
        rw [this] at h
        obtain ⟨c, hc⟩ := foldl_pickStep_some endT xs x
        rw [hc] at h
        cases h
      · have : pickStep endT none x = none := by
          unfold pickStep
          rw [if_neg hx]
        rw [this] at h
        exact ih h t h1 hf

theorem inv_runTimers : ∀ (fuel : Nat) (endT : Int) (s : ManagerState), MInv s →
    MInv (runTimers fuel endT s) := by
  intro fuel
  induction fuel with
  | zero => intro endT s hInv; exact hInv
  | succ n ih =>
    intro endT s hInv
    unfold runTimers
    cases hp : pickNext endT s.pending with
    | none => exact hInv
    | some t =>
      obtain ⟨hmem, hle⟩ := pickNext_mem hp
      refine ih endT _ ?_
      have h1 : MInv { s with
          pending := cancelHandle t.handle s.pending,
          now := max s.now t.fireAt } := by
        have := inv_cancel_pending hInv t.handle
        have h2 := inv_raise_now this (n := max s.now t.fireAt) (le_max_left _ _)
        exact h2
      refine inv_fireTimer h1 ?_
      intro st hst hk
      obtain ⟨w, hw1, hw2, hw3⟩ := hInv.warn_timer_sound t hmem hk st hst
      exact ⟨w, hw1, hw2, le_trans hw3 (le_max_right _ _)⟩

theorem fireTimer_now (t : Timer) (u : ManagerState) : (fireTimer t u).now = u.now := by
  rcases t with ⟨th, tf, tid, tk⟩
  cases tk with
  | timeoutFire =>
    unfold fireTimer
    cases h : alookup tid u.statuses with
    | none => rfl
    | some st =>
      dsimp only
      split
      · rw [clearTimeout_fst_eq, clearHandles_eq]
      · rfl
  | startWarning a b =>
    unfold fireTimer
    cases h : alookup tid u.statuses with
    | none => rfl
    | some st =>
      dsimp only
      split
      · rfl
      · rfl
  | extendWarning =>
    unfold fireTimer
    cases h : alookup tid u.statuses with
    | none => rfl
    | some st =>
      dsimp only
      split
      · rfl
      · rfl

theorem runTimers_now_le : ∀ (fuel : Nat) (endT : Int) (s : ManagerState),
    s.now ≤ endT → (runTimers fuel endT s).now ≤ endT := by
  intro fuel
  induction fuel with
  | zero => intro endT s h; exact h
  | succ n ih =>
    intro endT s h
    unfold runTimers
    cases hp : pickNext endT s.pending with
    | none => exact h
    | some t =>
      obtain ⟨hmem, hle⟩ := pickNext_mem hp
      refine ih endT _ ?_
      rw [fireTimer_now]
      exact max_le h hle

theorem inv_advance {d : Nat} {s : ManagerState} (hInv : MInv s) :
    MInv (advance d s) := by
  unfold advance
  have h1 := inv_runTimers s.pending.length (s.now + (d : Int)) s hInv
  refine inv_raise_now h1 ?_
  exact runTimers_now_le _ _ _ (by omega)

theorem inv_clearAll {s : ManagerState} (hInv : MInv s) : MInv (clearAll s) := by
  unfold clearAll
  have : ∀ (l : List (String × TimeoutStatus)) (acc : ManagerState), MInv acc →
      MInv (l.foldl
        (fun acc p => if p.2.isActive = true then (clearTimeout p.1 acc).1 else acc) acc) := by
    intro l
    induction l with
    | nil => intro acc h; exact h
    | cons p rest ih =>
      intro acc h
      rw [List.foldl_cons]
      by_cases hp : p.2.isActive = true
      · rw [if_pos hp]
        exact ih _ (inv_clearTimeout h)
      · rw [if_neg hp]
        exact ih _ h
  exact this s.statuses s hInv

theorem dispose_eq_of_inv {s : ManagerState} (hInv : MInv s) :
    dispose s = { s with pending := [], timeouts := [], warnings := [], statuses := [] } := by
  unfold dispose
  have : s.pending.filter
      (fun t => ¬ (s.timeouts.any (fun p => p.2 = t.handle) ∨
                   s.warnings.any (fun p => p.2 = t.handle))) = [] := by
    rw [List.filter_eq_nil_iff]
    intro t ht
    simp only [Bool.not_eq_true, Bool.not_eq_false', decide_eq_true_eq, not_not]
    rcases hInv.pending_reg t ht with hreg | hreg
    · have hm := alookup_eq_some_mem hreg
      refine Or.inl (List.any_eq_true.mpr ⟨(t.taskId, t.handle), hm, ?_⟩)
      exact decide_eq_true rfl
    · have hm := alookup_eq_some_mem hreg
      refine Or.inr (List.any_eq_true.mpr ⟨(t.taskId, t.handle), hm, ?_⟩)
      exact decide_eq_true rfl
  rw [this]

theorem inv_dispose {s : ManagerState} (hInv : MInv s) : MInv (dispose s) := by
  rw [dispose_eq_of_inv hInv]
  constructor <;> simp [KeysNodup]

theorem inv_applyOp (op : Op) {s : ManagerState} (hInv : MInv s) : MInv (applyOp op s) := by
  cases op with
  | start id cfg => exact inv_startTimeout hInv
  | extend id d cfg => exact inv_extendTimeout hInv
  | clear id => exact inv_clearTimeout hInv
  | clearAll => exact inv_clearAll hInv
  | dispose => exact inv_dispose hInv
  | advance d => exact inv_advance hInv

theorem inv_execOps (ops : List Op) : MInv (execOps ops) := by
  unfold execOps
  have : ∀ (l : List Op) (s : ManagerState), MInv s →
      MInv (l.foldl (fun s op => applyOp op s) s) := by
    intro l
    induction l with
    | nil => intro s h; exact h
    | cons op rest ih =>
      intro s h
      rw [List.foldl_cons]
      exact ih _ (inv_applyOp op h)
  exact this ops initState inv_initState

end SubtaskTimeoutManager

namespace SubtaskTimeoutManager

theorem getTimeRemaining_eq {id : String} {s : ManagerState} {st : TimeoutStatus}
    (h : alookup id s.statuses = some st) (ha : st.isActive = true) :
    getTimeRemaining id s = max 0 (st.timeoutMs - (s.now - st.startTime)) := by
  unfold getTimeRemaining
  rw [h]
  simp [ha]

theorem isActive_eq_false_of_none {id : String} {s : ManagerState}
    (h : alookup id s.statuses = none) : isActive id s = false := by
  unfold isActive
  rw [h]

theorem none_of_isActive_false {id : String} {s : ManagerState} (hInv : MInv s)
    (h : isActive id s = false) : alookup id s.statuses = none := by
  cases hh : alookup id s.statuses with
  | none => rfl
  | some st =>
    exfalso
    unfold isActive at h
    rw [hh] at h
    have hact := hInv.statuses_active _ (alookup_eq_some_mem hh)
    simp only at hact
    have h' : st.isActive = false := h
    rw [hact] at h'
    cases h'

end SubtaskTimeoutManager

open SubtaskTimeoutManager

/-- C1: for every active record, a call to `extendTimeout` whose requested
new total would leave less than the 60000 ms floor of remaining time
succeeds (returns `true`) and leaves `getTimeRemaining` at exactly 60000:
the reduction is silently clamped, never rejected. -/
theorem c1_floor_clamp (s : ManagerState) (id : String) (deltaMs : Int)
    (cfg? : Option TimeoutConfig) (st : TimeoutStatus)
    (h : alookup id s.statuses = some st) (ha : st.isActive = true)
    (hc : st.timeoutMs + deltaMs - (s.now - st.startTime) < 60000) :
    (extendTimeout id deltaMs cfg? s).2 = true ∧
    getTimeRemaining id (extendTimeout id deltaMs cfg? s).1 = 60000 := by
  have hc' : st.timeoutMs + deltaMs - ((clearHandles id s).now - st.startTime) < 60000 := by
    rw [clearHandles_now_eq]
    exact hc
  have hkey : ∀ u : ManagerState, u.now = (clearHandles id s).now →
      alookup id u.statuses = some (extendStatus st
        ((clearHandles id s).now - st.startTime + 60000)
        ((clearHandles id s).now - st.startTime)) →
      getTimeRemaining id u = 60000 := by
    intro u hnow hlook
    rw [getTimeRemaining_eq hlook (by simp only [extendStatus]; exact ha)]
    simp only [extendStatus, hnow]
    rw [show (clearHandles id s).now - st.startTime + 60000 -
        ((clearHandles id s).now - st.startTime) = 60000 by ring]
    exact max_eq_right (by norm_num)
  cases cfg? with
  | none =>
    rw [extendTimeout_eq_clamp_none id deltaMs s st h ha hc']
    refine ⟨rfl, ?_⟩
    exact hkey _ rfl alookup_aset_self
  | some cfg =>
    rw [extendTimeout_eq_clamp_some id deltaMs s st cfg h ha hc']
    refine ⟨rfl, ?_⟩
    exact hkey _ rfl alookup_aset_self

/-- Witness for C1: the spec's concrete scenario — start with 90000 ms,
advance 85000 ms (5000 remaining), request a further reduction by 10000;
the call succeeds and the remaining time is exactly the 60000 ms floor. -/
theorem c1_floor_clamp_witness :
    (alookup "t1" (execOps [Op.start "t1"
        { timeoutMs := 90000, warningMs := none,
          hasOnWarning := false, hasOnExtended := true },
      Op.advance 85000]).statuses = some
        { taskId := "t1", startTime := 0, timeoutMs := 90000, warningMs := none,
          hasWarned := false, isActive := true }) ∧
    (extendTimeout "t1" (-10000) none (execOps [Op.start "t1"
        { timeoutMs := 90000, warningMs := none,
          hasOnWarning := false, hasOnExtended := true },
      Op.advance 85000])).2 = true ∧
    getTimeRemaining "t1" (extendTimeout "t1" (-10000) none (execOps [Op.start "t1"
        { timeoutMs := 90000, warningMs := none,
          hasOnWarning := false, hasOnExtended := true },
      Op.advance 85000])).1 = 60000 := by
  refine ⟨by decide, ?_⟩
  have := c1_floor_clamp (execOps [Op.start "t1"
        { timeoutMs := 90000, warningMs := none,
          hasOnWarning := false, hasOnExtended := true },
      Op.advance 85000]) "t1" (-10000) none
    { taskId := "t1", startTime := 0, timeoutMs := 90000, warningMs := none,
      hasWarned := false, isActive := true }
    (by decide) (by decide) (by decide)
  exact this

namespace SubtaskTimeoutManager

/-- One `extendTimeout` call (any delta, with or without a config) keeps the
record present and preserves its `startTime`. -/
theorem extendTimeout_preserves_startTime (id : String) (deltaMs : Int)
    (cfg? : Option TimeoutConfig) (s : ManagerState) (st : TimeoutStatus)
    (h : alookup id s.statuses = some st) :
    ∃ st', alookup id (extendTimeout id deltaMs cfg? s).1.statuses = some st' ∧
      st'.startTime = st.startTime := by
  cases haB : st.isActive with
  | false =>
    rw [extendTimeout_eq_inactive id deltaMs cfg? s st h haB]
    exact ⟨st, h, rfl⟩
  | true =>
    cases cfg? with
    | none =>
      by_cases hcl : st.timeoutMs + deltaMs - ((clearHandles id s).now - st.startTime) < 60000
      · rw [extendTimeout_eq_clamp_none id deltaMs s st h haB hcl]
        exact ⟨_, alookup_aset_self, rfl⟩
      · rw [extendTimeout_eq_noclamp_none id deltaMs s st h haB hcl]
        exact ⟨_, alookup_aset_self, rfl⟩
    | some cfg =>
      by_cases hcl : st.timeoutMs + deltaMs - ((clearHandles id s).now - st.startTime) < 60000
      · rw [extendTimeout_eq_clamp_some id deltaMs s st cfg h haB hcl]
        exact ⟨_, alookup_aset_self, rfl⟩
      · by_cases hg : ∃ w, st.warningMs = some w ∧ w ≠ 0 ∧
            (clearHandles id s).now - st.startTime < w ∧ cfg.hasOnWarning = true
        · obtain ⟨w, hw, hw0, hlt, hcb⟩ := hg
          rw [extendTimeout_eq_noclamp_some_warn id deltaMs s st cfg w h haB hcl hw hw0 hlt hcb]
          exact ⟨_, alookup_aset_self, rfl⟩
        · rw [extendTimeout_eq_noclamp_some_nowarn id deltaMs s st cfg h haB hcl (by
            intro w hw
            by_cases h1 : w = 0
            · exact Or.inl h1
            by_cases h2 : (clearHandles id s).now - st.startTime < w
            · by_cases h3 : cfg.hasOnWarning = true
              · exact absurd ⟨w, hw, h1, h2, h3⟩ hg
              · rw [Bool.not_eq_true] at h3
                exact Or.inr (Or.inr h3)
            · exact Or.inr (Or.inl h2))]
          exact ⟨_, alookup_aset_self, rfl⟩

end SubtaskTimeoutManager

/-- C2: the `startTime` stored when the record was created never changes
across any sequence of `extendTimeout` calls (with or without configs): if
the record holds `st` before the sequence and `st'` after it, then
`st'.startTime = st.startTime`. -/
theorem c2_startTime_immutable (s : ManagerState) (id : String)
    (calls : List (Int × Option TimeoutConfig)) (st : TimeoutStatus)
    (h : getStatus id s = some st) :
    ∀ st', getStatus id (extendMany id calls s) = some st' →
      st'.startTime = st.startTime := by
  unfold getStatus at *
  induction calls generalizing s st with
  | nil =>
    intro st' h'
    unfold extendMany at h'
    rw [List.foldl_nil] at h'
    rw [h] at h'
    injection h' with hh
    rw [← hh]
  | cons c rest ih =>
    intro st' h'
    obtain ⟨st1, h1, hst1⟩ := extendTimeout_preserves_startTime id c.1 c.2 s st h
    have h2 : extendMany id (c :: rest) s = extendMany id rest (extendTimeout id c.1 c.2 s).1 := by
      unfold extendMany
      rw [List.foldl_cons]
    rw [h2] at h'
    have := ih _ st1 h1 st' h'
    rw [this, hst1]

/-- Witness for C2: two successive extensions (one clamped reduction with a
config, one plain extension) leave `startTime` unchanged. -/
theorem c2_startTime_immutable_witness :
    (getStatus "t1" (execOps [Op.start "t1" c2cfg, Op.advance 3000]) = some
        { taskId := "t1", startTime := 0, timeoutMs := 90000, warningMs := some 2000,
          hasWarned := true, isActive := true }) ∧
    (∀ st', getStatus "t1" (extendMany "t1" [(-80000, some c2cfg), (500, none)]
        (execOps [Op.start "t1" c2cfg, Op.advance 3000])) = some st' →
      st'.startTime = 0) := by
  refine ⟨by decide, ?_⟩
  intro st' h'
  exact c2_startTime_immutable (execOps [Op.start "t1" c2cfg, Op.advance 3000]) "t1"
    [(-80000, some c2cfg), (500, none)]
    { taskId := "t1", startTime := 0, timeoutMs := 90000, warningMs := some 2000,
      hasWarned := true, isActive := true }
    (by decide) st' h'

/-- C4: a successful `extendTimeout(id, delta, config)` on an active record
whose new remaining time meets the floor returns `true`, leaves
`getTimeRemaining` at `d - e + delta`, commits the new total `d + delta`
to the stored status, and (the config providing an `onExtended` callback)
invokes `onExtended(id, d + delta)` synchronously as the last action of the
call, after the update is committed. -/
theorem c4_extend_success (s : ManagerState) (id : String) (deltaMs : Int)
    (cfg : TimeoutConfig) (st : TimeoutStatus)
    (h : alookup id s.statuses = some st) (ha : st.isActive = true)
    (hfloor : 60000 ≤ st.timeoutMs + deltaMs - (s.now - st.startTime))
    (hext : cfg.hasOnExtended = true) :
    (extendTimeout id deltaMs (some cfg) s).2 = true ∧
    getTimeRemaining id (extendTimeout id deltaMs (some cfg) s).1 =
      st.timeoutMs - (s.now - st.startTime) + deltaMs ∧
    (extendTimeout id deltaMs (some cfg) s).1.events =
      s.events ++ [Event.extendedFired id (st.timeoutMs + deltaMs)] ∧
    (getStatus id (extendTimeout id deltaMs (some cfg) s).1).map TimeoutStatus.timeoutMs =
      some (st.timeoutMs + deltaMs) := by
  have hnoweq : (clearHandles id s).now = s.now := clearHandles_now_eq id s
  have hncl : ¬ st.timeoutMs + deltaMs - ((clearHandles id s).now - st.startTime) < 60000 := by
    rw [hnoweq]
    omega
  have hev : (clearHandles id s).events = s.events := by rw [clearHandles_eq]
  have hkey : ∀ u : ManagerState, u.now = (clearHandles id s).now →
      alookup id u.statuses = some (extendStatus st (st.timeoutMs + deltaMs)
        ((clearHandles id s).now - st.startTime)) →
      getTimeRemaining id u = st.timeoutMs - (s.now - st.startTime) + deltaMs := by
    intro u hnow hlook
    rw [getTimeRemaining_eq hlook (by simp only [extendStatus]; exact ha)]
    simp only [extendStatus, hnow, hnoweq]
    rw [show st.timeoutMs + deltaMs - (s.now - st.startTime) =
      st.timeoutMs - (s.now - st.startTime) + deltaMs by ring]
    exact max_eq_right (by omega)
  unfold getStatus
  by_cases hg : ∃ w, st.warningMs = some w ∧ w ≠ 0 ∧
      (clearHandles id s).now - st.startTime < w ∧ cfg.hasOnWarning = true
  · obtain ⟨w, hw, hw0, hlt, hcb⟩ := hg
    rw [extendTimeout_eq_noclamp_some_warn id deltaMs s st cfg w h ha hncl hw hw0 hlt hcb]
    refine ⟨rfl, ?_, ?_, ?_⟩
    · exact hkey _ rfl alookup_aset_self
    · simp [hext, hev]
    · rw [alookup_aset_self]
      rfl
  · rw [extendTimeout_eq_noclamp_some_nowarn id deltaMs s st cfg h ha hncl (by
      intro w hw
      by_cases h1 : w = 0
      · exact Or.inl h1
      by_cases h2 : (clearHandles id s).now - st.startTime < w
      · by_cases h3 : cfg.hasOnWarning = true
        · exact absurd ⟨w, hw, h1, h2, h3⟩ hg
        · rw [Bool.not_eq_true] at h3
          exact Or.inr (Or.inr h3)
      · exact Or.inr (Or.inl h2))]
    refine ⟨rfl, ?_, ?_, ?_⟩
    · exact hkey _ rfl alookup_aset_self
    · simp [hext, hev]
    · rw [alookup_aset_self]
      rfl

/-- Witness for C4: the unit-test scenario — start at 5000 ms, advance
2000 ms, extend by 100000 ms: the call returns `true`, remaining time is
5000 - 2000 + 100000, and `onExtended("task1", 105000)` fires. -/
theorem c4_extend_success_witness :
    (alookup "task1" (execOps [Op.start "task1" c4cfg, Op.advance 2000]).statuses = some
        { taskId := "task1", startTime := 0, timeoutMs := 5000, warningMs := none,
          hasWarned := false, isActive := true }) ∧
    (extendTimeout "task1" 100000 (some c4cfg)
        (execOps [Op.start "task1" c4cfg, Op.advance 2000])).2 = true ∧
    getTimeRemaining "task1" (extendTimeout "task1" 100000 (some c4cfg)
        (execOps [Op.start "task1" c4cfg, Op.advance 2000])).1 = 103000 ∧
    (extendTimeout "task1" 100000 (some c4cfg)
        (execOps [Op.start "task1" c4cfg, Op.advance 2000])).1.events =
      (execOps [Op.start "task1" c4cfg, Op.advance 2000]).events ++
        [Event.extendedFired "task1" 105000] ∧
    (getStatus "task1" (extendTimeout "task1" 100000 (some c4cfg)
        (execOps [Op.start "task1" c4cfg, Op.advance 2000])).1).map
      TimeoutStatus.timeoutMs = some 105000 := by
  refine ⟨by decide, ?_⟩
  have := c4_extend_success (execOps [Op.start "task1" c4cfg, Op.advance 2000]) "task1"
    100000 c4cfg
    { taskId := "task1", startTime := 0, timeoutMs := 5000, warningMs := none,
      hasWarned := false, isActive := true }
    (by decide) (by decide) (by decide) (by decide)
  exact this

namespace SubtaskTimeoutManager

theorem no_handles_of_no_status {id : String} {s : ManagerState} (hInv : MInv s)
    (h : alookup id s.statuses = none) :
    alookup id s.timeouts = none ∧ alookup id s.warnings = none := by
  constructor
  · cases hh : alookup id s.timeouts with
    | none => rfl
    | some v =>
      exfalso
      have := hInv.timeouts_status _ (alookup_eq_some_mem hh)
      simp only at this
      rw [h] at this
      cases this
  · cases hh : alookup id s.warnings with
    | none => rfl
    | some v =>
      exfalso
      have := hInv.warnings_status _ (alookup_eq_some_mem hh)
      simp only at this
      rw [h] at this
      cases this

theorem clearHandles_eq_self {id : String} {s : ManagerState}
    (ht : alookup id s.timeouts = none) (hw : alookup id s.warnings = none) :
    clearHandles id s = s := by
  rw [clearHandles_eq]
  rw [ht, hw]
  rw [aerase_eq_of_alookup_none ht, aerase_eq_of_alookup_none hw]
  rfl

end SubtaskTimeoutManager

/-- C9: on an id with no active record, `extendTimeout` returns `false` and
leaves the whole state unchanged, and `clearTimeout` likewise returns
`false` and leaves the whole state unchanged.  Both are total functions of
the state (the model has no failure/exception channel): absence is reported
only through the boolean result. -/
theorem c9_absent_noop (ops : List Op) (id : String) (deltaMs : Int)
    (cfg? : Option TimeoutConfig)
    (h : isActive id (execOps ops) = false) :
    extendTimeout id deltaMs cfg? (execOps ops) = (execOps ops, false) ∧
    clearTimeout id (execOps ops) = (execOps ops, false) := by
  have hInv := inv_execOps ops
  have hnone := none_of_isActive_false hInv h
  obtain ⟨ht, hw⟩ := no_handles_of_no_status hInv hnone
  constructor
  · exact extendTimeout_eq_absent id deltaMs cfg? _ hnone
  · unfold clearTimeout
    rw [clearHandles_eq_self ht hw]
    show (match alookup id (execOps ops).statuses with
      | some _ => ({ execOps ops with statuses := aerase id (execOps ops).statuses }, true)
      | none => (execOps ops, false)) = (execOps ops, false)
    rw [hnone]

/-- Witness for C9: a manager that has started and already cleared a task;
both operations on the absent id are no-ops returning `false`. -/
theorem c9_absent_noop_witness :
    (isActive "t1" (execOps [Op.start "t1" c4cfg, Op.clear "t1"]) = false) ∧
    extendTimeout "t1" 5000 (some c4cfg) (execOps [Op.start "t1" c4cfg, Op.clear "t1"]) =
      (execOps [Op.start "t1" c4cfg, Op.clear "t1"], false) ∧
    clearTimeout "t1" (execOps [Op.start "t1" c4cfg, Op.clear "t1"]) =
      (execOps [Op.start "t1" c4cfg, Op.clear "t1"], false) := by
  refine ⟨by decide, ?_⟩
  exact c9_absent_noop [Op.start "t1" c4cfg, Op.clear "t1"] "t1" 5000 (some c4cfg) (by decide)

/-- C10: in every reachable state, every stored record is active (each
deactivation also removes the table entry), so `isActive id` is true
exactly when `getStatus id` is defined, and `getActiveTimeouts` lists
exactly the ids present in the table. -/
theorem c10_active_iff_present (ops : List Op) (id : String) :
    (∀ p ∈ (execOps ops).statuses, p.2.isActive = true) ∧
    (isActive id (execOps ops) = true ↔ (getStatus id (execOps ops)).isSome = true) ∧
    (id ∈ getActiveTimeouts (execOps ops) ↔ (getStatus id (execOps ops)).isSome = true) := by
  have hInv := inv_execOps ops
  refine ⟨hInv.statuses_active, ?_, ?_⟩
  · unfold isActive getStatus
    cases hh : alookup id (execOps ops).statuses with
    | none => simp
    | some st =>
      have := hInv.statuses_active _ (alookup_eq_some_mem hh)
      simp only at this
      simp [this]
  · unfold getActiveTimeouts getStatus
    rw [alookup_isSome_iff]
    constructor
    · intro hmem
      rcases List.mem_map.mp hmem with ⟨p, hp, hpid⟩
      have hp1 := (List.mem_filter.mp hp).1
      exact ⟨p.2, by rw [← hpid]; exact hp1⟩
    · rintro ⟨st, hst⟩
      refine List.mem_map.mpr ⟨(id, st), ?_, rfl⟩
      refine List.mem_filter.mpr ⟨hst, ?_⟩
      have hact := hInv.statuses_active _ hst
      simp only at hact
      simp [hact]

/-- C7: starting a timeout for an id that already has a record first cancels
the old record and its pending warning/timeout actions: afterwards every
pending timer of that id is freshly allocated (its handle is at least the
pre-call `nextHandle`, so no first-generation timer remains schedulable and
none of the first generation's callbacks can ever fire), the table holds
exactly one record for the id, and — in any reachable state — at most one
record per id exists. -/
theorem c7_restart_replaces (ops : List Op) (id : String) (cfg : TimeoutConfig) :
    (∀ t ∈ (startTimeout id cfg (execOps ops)).pending, t.taskId = id →
      (execOps ops).nextHandle ≤ t.handle) ∧
    ((startTimeout id cfg (execOps ops)).statuses.filter
      (fun p => p.1 = id)).length = 1 ∧
    (∀ j, ((startTimeout id cfg (execOps ops)).statuses.filter
      (fun p => p.1 = j)).length ≤ 1) := by
  have hInv := inv_execOps ops
  have hInv' := @inv_startTimeout id cfg (execOps ops) hInv
  have hIdGone : ∀ t ∈ (clearTimeout id (execOps ops)).1.pending, t.taskId ≠ id := by
    rw [clearTimeout_fst_eq]
    exact clearHandles_no_id_timer hInv
  have hnh : (clearTimeout id (execOps ops)).1.nextHandle = (execOps ops).nextHandle := by
    rw [clearTimeout_fst_eq, clearHandles_eq]
  refine ⟨?_, ?_, ?_⟩
  · intro t ht htid
    by_cases hg : warnGuard cfg
    · obtain ⟨w, hw, hw0, hcb⟩ := hg
      rw [startTimeout_eq_of_warnGuard id cfg (execOps ops) w hw hw0 hcb] at ht
      simp only at ht
      rcases List.mem_append.mp ht with hmem | hmem
      · exact absurd htid (hIdGone t hmem)
      · rcases List.mem_cons.mp hmem with hmem2 | hmem2
        · rw [hmem2]
          simp only
          rw [hnh]
        · rw [List.mem_singleton] at hmem2
          rw [hmem2]
          simp only
          rw [hnh]
          omega
    · rw [startTimeout_eq_of_not_warnGuard id cfg (execOps ops) hg] at ht
      simp only at ht
      rcases List.mem_append.mp ht with hmem | hmem
      · exact absurd htid (hIdGone t hmem)
      · rw [List.mem_singleton] at hmem
        rw [hmem]
        simp only
        rw [hnh]
  · by_cases hg : warnGuard cfg
    · obtain ⟨w, hw, hw0, hcb⟩ := hg
      rw [startTimeout_eq_of_warnGuard id cfg (execOps ops) w hw hw0 hcb]
      simp only
      exact countKey_aset_self
    · rw [startTimeout_eq_of_not_warnGuard id cfg (execOps ops) hg]
      simp only
      exact countKey_aset_self
  · intro j
    exact countKey_le_one_of_nodup hInv'.statuses_nodup

namespace SubtaskTimeoutManager

theorem clearAll_fold_statuses :
    ∀ (l : List (String × TimeoutStatus)) (acc : ManagerState),
      acc.statuses = l → KeysNodup l → (∀ p ∈ l, p.2.isActive = true) →
      (l.foldl (fun acc p => if p.2.isActive = true then (clearTimeout p.1 acc).1 else acc)
        acc).statuses = [] := by
  intro l
  induction l with
  | nil =>
    intro acc h _ _
    rw [List.foldl_nil]
    exact h
  | cons p rest ih =>
    intro acc h hnd hact
    rw [List.foldl_cons]
    rw [if_pos (hact p (List.mem_cons_self p rest))]
    refine ih _ ?_ ?_ ?_
    · rw [clearTimeout_fst_eq]
      simp only [clearHandles_eq]
      rw [h]
      show aerase p.1 (p :: rest) = rest
      unfold aerase
      rw [List.filter_cons]
      rw [if_neg (by simp)]
      rw [List.filter_eq_self]
      intro q hq
      simp only [ne_eq, decide_eq_true_eq, decide_not, Bool.not_eq_true',
        decide_eq_false_iff_not]
      intro hq1
      simp only [KeysNodup, List.map_cons, List.nodup_cons] at hnd
      exact hnd.1 (by rw [← hq1]; exact List.mem_map.mpr ⟨q, hq, rfl⟩)
    · simp only [KeysNodup, List.map_cons, List.nodup_cons] at hnd
      exact hnd.2
    · intro q hq
      exact hact q (List.mem_cons_of_mem p hq)

theorem clearAll_empty {s : ManagerState} (hInv : MInv s) :
    (clearAll s).statuses = [] ∧ (clearAll s).pending = [] := by
  have hst : (clearAll s).statuses = [] := by
    unfold clearAll
    exact clearAll_fold_statuses s.statuses s rfl hInv.statuses_nodup hInv.statuses_active
  refine ⟨hst, ?_⟩
  have hInv' := inv_clearAll hInv
  rw [List.eq_nil_iff_forall_not_mem]
  intro t ht
  rcases hInv'.pending_reg t ht with hreg | hreg
  · have := hInv'.timeouts_status _ (alookup_eq_some_mem hreg)
    simp only at this
    rw [hst] at this
    cases this
  · have := hInv'.warnings_status _ (alookup_eq_some_mem hreg)
    simp only at this
    rw [hst] at this
    cases this

end SubtaskTimeoutManager

/-- C8: after `clearAll()`, every id that was active beforehand reads as
inactive, and no pending warning or timeout action for any such record
remains in the scheduler — so no callback of those records can ever fire
afterwards (in the model a callback fires only by consuming a pending
timer). -/
theorem c8_clearAll_deactivates (ops : List Op) (id : String)
    (h : id ∈ getActiveTimeouts (execOps ops)) :
    isActive id (clearAll (execOps ops)) = false ∧
    ∀ t ∈ (clearAll (execOps ops)).pending, t.taskId ≠ id := by
  have hInv := inv_execOps ops
  obtain ⟨hst, hpend⟩ := clearAll_empty hInv
  constructor
  · refine isActive_eq_false_of_none ?_
    rw [hst]
    rfl
  · intro t ht
    rw [hpend] at ht
    cases ht

/-- Witness for C8: two active tasks; after `clearAll` the first reads
inactive and no timer of its remains pending. -/
theorem c8_clearAll_deactivates_witness :
    ("a" ∈ getActiveTimeouts (execOps [Op.start "a" c4cfg, Op.start "b" c2cfg])) ∧
    isActive "a" (clearAll (execOps [Op.start "a" c4cfg, Op.start "b" c2cfg])) = false ∧
    ∀ t ∈ (clearAll (execOps [Op.start "a" c4cfg, Op.start "b" c2cfg])).pending,
      t.taskId ≠ "a" := by
  refine ⟨by decide, ?_⟩
  exact c8_clearAll_deactivates [Op.start "a" c4cfg, Op.start "b" c2cfg] "a" (by decide)

/-- Counterexample to C5: in the floor-clamp branch of `extendTimeout`, no
warning action is rescheduled even though a warning is configured
(`warningMs = 50000`, `onWarning` supplied), the warning point has not been
reached (`hasWarned = false`, 10000 < 50000) and the call succeeds with the
clamp applied (`getTimeRemaining = 60000`): afterwards the warnings map has
no handle for the task and the only pending timer is the timeout action. -/
theorem c5_counterexample :
    (extendTimeout "t1" (-45000) (some c5cfg) c5state).2 = true ∧
    c5cfg.hasOnWarning = true ∧
    (getStatus "t1" c5result).map TimeoutStatus.hasWarned = some false ∧
    (getStatus "t1" c5result).map TimeoutStatus.warningMs = some (some 50000) ∧
    getTimeRemaining "t1" c5result = 60000 ∧
    alookup "t1" c5result.warnings = none ∧
    (c5result.pending.filter (fun t => t.kind ≠ TimerKind.timeoutFire)).length = 0 := by
  decide


/-- C5 (amended): when `extendTimeout` is called with a config on an active
record it always reschedules a timeout action for the new remaining time
(the floor value when the clamp applies), but it reschedules a warning
action only in the non-clamped branch — exactly when the floor clamp does
not apply, a nonzero warning offset is configured whose warning point lies
in the future, and the config supplies `onWarning`.  When the floor clamp
applies, no warning action is rescheduled. -/
theorem c5_amended_reschedule (ops : List Op) (id : String) (deltaMs : Int)
    (cfg : TimeoutConfig) (st : TimeoutStatus)
    (h : alookup id (execOps ops).statuses = some st) (ha : st.isActive = true) :
    (∃ t ∈ (extendTimeout id deltaMs (some cfg) (execOps ops)).1.pending,
      t.taskId = id ∧ t.kind = TimerKind.timeoutFire ∧
      t.fireAt = (execOps ops).now +
        max 60000 (st.timeoutMs + deltaMs - ((execOps ops).now - st.startTime))) ∧
    ((∃ t ∈ (extendTimeout id deltaMs (some cfg) (execOps ops)).1.pending,
        t.taskId = id ∧ t.kind ≠ TimerKind.timeoutFire) ↔
      (60000 ≤ st.timeoutMs + deltaMs - ((execOps ops).now - st.startTime) ∧
       (∃ w, st.warningMs = some w ∧ w ≠ 0 ∧ (execOps ops).now - st.startTime < w) ∧
       cfg.hasOnWarning = true)) := by
  have hInv := inv_execOps ops
  have hIdGone := @clearHandles_no_id_timer id (execOps ops) hInv
  have hnoweq : (clearHandles id (execOps ops)).now = (execOps ops).now :=
    clearHandles_now_eq id (execOps ops)
  by_cases hcl : st.timeoutMs + deltaMs -
      ((clearHandles id (execOps ops)).now - st.startTime) < 60000
  · rw [extendTimeout_eq_clamp_some id deltaMs (execOps ops) st cfg h ha hcl]
    rw [hnoweq] at hcl
    constructor
    · refine ⟨⟨(clearHandles id (execOps ops)).nextHandle,
        (clearHandles id (execOps ops)).now + 60000, id, TimerKind.timeoutFire⟩,
        List.mem_append.mpr (Or.inr (List.mem_singleton.mpr rfl)), rfl, rfl, ?_⟩
      rw [hnoweq, max_eq_left (by omega)]
    · constructor
      · rintro ⟨t, ht, htid, hkind⟩
        exfalso
        rcases List.mem_append.mp ht with hmem | hmem
        · exact hIdGone t hmem htid
        · rw [List.mem_singleton] at hmem
          rw [hmem] at hkind
          exact hkind rfl
      · rintro ⟨hge, _, _⟩
        omega
  · have hge : 60000 ≤ st.timeoutMs + deltaMs - ((execOps ops).now - st.startTime) := by
      rw [hnoweq] at hcl
      omega
    by_cases hg : ∃ w, st.warningMs = some w ∧ w ≠ 0 ∧
        (clearHandles id (execOps ops)).now - st.startTime < w ∧ cfg.hasOnWarning = true
    · obtain ⟨w, hw, hw0, hlt, hcb⟩ := hg
      rw [extendTimeout_eq_noclamp_some_warn id deltaMs (execOps ops) st cfg w h ha hcl
        hw hw0 hlt hcb]
      constructor
      · refine ⟨⟨(clearHandles id (execOps ops)).nextHandle + 1,
          (clearHandles id (execOps ops)).now +
            (st.timeoutMs + deltaMs - ((clearHandles id (execOps ops)).now - st.startTime)),
          id, TimerKind.timeoutFire⟩,
          List.mem_append.mpr (Or.inr (List.mem_cons.mpr (Or.inr
            (List.mem_singleton.mpr rfl)))), rfl, rfl, ?_⟩
        rw [hnoweq, max_eq_right (by omega)]
      · constructor
        · intro _
          refine ⟨hge, ⟨w, hw, hw0, ?_⟩, hcb⟩
          rw [hnoweq] at hlt
          exact hlt
        · intro _
          refine ⟨⟨(clearHandles id (execOps ops)).nextHandle,
            (clearHandles id (execOps ops)).now +
              (w - ((clearHandles id (execOps ops)).now - st.startTime)),
            id, TimerKind.extendWarning⟩,
            List.mem_append.mpr (Or.inr (List.mem_cons.mpr (Or.inl rfl))), rfl, ?_⟩
          intro hcon
          cases hcon
    · rw [extendTimeout_eq_noclamp_some_nowarn id deltaMs (execOps ops) st cfg h ha hcl (by
        intro w hw
        by_cases h1 : w = 0
        · exact Or.inl h1
        by_cases h2 : (clearHandles id (execOps ops)).now - st.startTime < w
        · by_cases h3 : cfg.hasOnWarning = true
          · exact absurd ⟨w, hw, h1, h2, h3⟩ hg
          · rw [Bool.not_eq_true] at h3
            exact Or.inr (Or.inr h3)
        · exact Or.inr (Or.inl h2))]
      constructor
      · refine ⟨⟨(clearHandles id (execOps ops)).nextHandle,
          (clearHandles id (execOps ops)).now +
            (st.timeoutMs + deltaMs - ((clearHandles id (execOps ops)).now - st.startTime)),
          id, TimerKind.timeoutFire⟩,
          List.mem_append.mpr (Or.inr (List.mem_singleton.mpr rfl)), rfl, rfl, ?_⟩
        rw [hnoweq, max_eq_right (by omega)]
      · constructor
        · rintro ⟨t, ht, htid, hkind⟩
          exfalso
          rcases List.mem_append.mp ht with hmem | hmem
          · exact hIdGone t hmem htid
          · rw [List.mem_singleton] at hmem
            rw [hmem] at hkind
            exact hkind rfl
        · rintro ⟨_, ⟨w, hw, hw0, hlt⟩, hcb⟩
          exfalso
          refine hg ⟨w, hw, hw0, ?_, hcb⟩
          rw [hnoweq]
          exact hlt

/-- Witness for the amended C5: a non-clamped extension with a configured
future warning reschedules both a timeout action and a warning action. -/
theorem c5_amended_reschedule_witness :
    (alookup "t1" (execOps [Op.start "t1" c5cfg, Op.advance 10000]).statuses = some
      { taskId := "t1", startTime := 0, timeoutMs := 100000, warningMs := some 50000,
        hasWarned := false, isActive := true }) ∧
    ((∃ t ∈ (extendTimeout "t1" 50000 (some c5cfg)
        (execOps [Op.start "t1" c5cfg, Op.advance 10000])).1.pending,
      t.taskId = "t1" ∧ t.kind = TimerKind.timeoutFire ∧
      t.fireAt = (execOps [Op.start "t1" c5cfg, Op.advance 10000]).now +
        max 60000 (100000 + 50000 -
          ((execOps [Op.start "t1" c5cfg, Op.advance 10000]).now - 0))) ∧
    ((∃ t ∈ (extendTimeout "t1" 50000 (some c5cfg)
        (execOps [Op.start "t1" c5cfg, Op.advance 10000])).1.pending,
        t.taskId = "t1" ∧ t.kind ≠ TimerKind.timeoutFire) ↔
      (60000 ≤ 100000 + 50000 -
          ((execOps [Op.start "t1" c5cfg, Op.advance 10000]).now - 0) ∧
       (∃ w, (some 50000 : Option Int) = some w ∧ w ≠ 0 ∧
          (execOps [Op.start "t1" c5cfg, Op.advance 10000]).now - 0 < w) ∧
       c5cfg.hasOnWarning = true))) :=
  ⟨by decide, c5_amended_reschedule [Op.start "t1" c5cfg, Op.advance 10000] "t1" 50000 c5cfg
    { taskId := "t1", startTime := 0, timeoutMs := 100000, warningMs := some 50000,
      hasWarned := false, isActive := true }
    (by decide) (by decide)⟩

namespace SubtaskTimeoutManager

/-- Exhaustive description of what a fired timer closure can do: nothing, a
timeout fire (record removed, `onTimeout` logged), or a warning fire
(`hasWarned` set, `onWarning` logged). -/
theorem fireTimer_cases (t : Timer) (s : ManagerState) :
    fireTimer t s = s ∨
    (∃ st, alookup t.taskId s.statuses = some st ∧ st.isActive = true ∧
      t.kind = TimerKind.timeoutFire ∧
      fireTimer t s = { (clearTimeout t.taskId s).1 with
        events := s.events ++ [Event.timeoutFired t.taskId] }) ∨
    (∃ st rem, alookup t.taskId s.statuses = some st ∧ st.isActive = true ∧
      st.hasWarned = false ∧ t.kind ≠ TimerKind.timeoutFire ∧
      fireTimer t s = { s with
        statuses := aset t.taskId { st with hasWarned := true } s.statuses,
        events := s.events ++ [Event.warningFired t.taskId rem] }) := by
  cases hk : t.kind with
  | timeoutFire =>
    cases h : alookup t.taskId s.statuses with
    | none =>
      left
      unfold fireTimer
      rw [hk]
      simp only [h]
    | some st =>
      cases haB : st.isActive with
      | false =>
        left
        unfold fireTimer
        rw [hk]
        simp only [h]
        rw [if_neg (by rw [haB]; simp)]
      | true =>
        right
        left
        exact ⟨st, rfl, haB, rfl, fireTimer_eq_timeout hk h haB⟩
  | startWarning cfgT cfgW =>
    cases h : alookup t.taskId s.statuses with
    | none =>
      left
      unfold fireTimer
      rw [hk]
      simp only [h]
    | some st =>
      by_cases hcond : st.isActive = true ∧ st.hasWarned = false
      · right
        right
        refine ⟨st, max 0 (cfgT - cfgW), rfl, hcond.1, hcond.2, ?_, ?_⟩
        · intro hc
          cases hc
        · unfold fireTimer
          rw [hk]
          simp only [h]
          rw [if_pos hcond]
      · left
        unfold fireTimer
        rw [hk]
        simp only [h]
        rw [if_neg hcond]
  | extendWarning =>
    cases h : alookup t.taskId s.statuses with
    | none =>
      left
      unfold fireTimer
      rw [hk]
      simp only [h]
    | some st =>
      by_cases hcond : st.isActive = true ∧ st.hasWarned = false
      · right
        right
        refine ⟨st, max 0 (st.timeoutMs - (s.now - st.startTime)), rfl, hcond.1, hcond.2,
          ?_, ?_⟩
        · intro hc
          cases hc
        · unfold fireTimer
          rw [hk]
          simp only [h]
          rw [if_pos hcond]
      · left
        unfold fireTimer
        rw [hk]
        simp only [h]
        rw [if_neg hcond]

end SubtaskTimeoutManager

namespace SubtaskTimeoutManager

theorem countWarningFired_append (id : String) (l1 l2 : List Event) :
    countWarningFired id (l1 ++ l2) =
      countWarningFired id l1 + countWarningFired id l2 := by
  unfold countWarningFired
  rw [List.filter_append, List.length_append]

theorem countWarningFired_single_other (id : String) (e : Event)
    (he : eventTask e ≠ id ∨ ∀ j r, e ≠ Event.warningFired j r) :
    countWarningFired id [e] = 0 := by
  cases e with
  | warningFired j r =>
    rcases he with he | he
    · unfold countWarningFired eventTask at *
      simp [he]
    · exact absurd rfl (he j r)
  | timeoutFired j => simp [countWarningFired]
  | extendedFired j v => simp [countWarningFired]

theorem warnedLocked_fireTimer {id : String} {s : ManagerState} (t : Timer)
    (hL : warnedLocked id s) :
    warnedLocked id (fireTimer t s) ∧
    countWarningFired id (fireTimer t s).events = countWarningFired id s.events := by
  rcases fireTimer_cases t s with heq | ⟨st, hst, hact, hk, heq⟩ |
    ⟨st, rem, hst, hact, hwn, hk, heq⟩
  · rw [heq]
    exact ⟨hL, rfl⟩
  · rw [heq]
    constructor
    · intro st' hst'
      rw [clearTimeout_fst_eq] at hst'
      simp only at hst'
      by_cases hid : id = t.taskId
      · rw [hid] at hst'
        rw [alookup_aerase_self] at hst'
        cases hst'
      · rw [alookup_aerase_ne hid] at hst'
        exact hL st' hst'
    · rw [countWarningFired_append]
      rw [countWarningFired_single_other id _ (Or.inr (by intro j r hc; cases hc))]
      omega
  · by_cases hid : id = t.taskId
    · exfalso
      rw [hid] at hL
      have := hL st hst
      rw [this] at hwn
      cases hwn
    · rw [heq]
      constructor
      · intro st' hst'
        simp only at hst'
        rw [alookup_aset_ne hid] at hst'
        exact hL st' hst'
      · rw [countWarningFired_append]
        rw [countWarningFired_single_other id _ (Or.inl (by
          unfold eventTask
          exact fun hc => hid hc.symm))]
        omega

theorem warnedLocked_runTimers {id : String} : ∀ (fuel : Nat) (endT : Int) (s : ManagerState),
    warnedLocked id s →
    warnedLocked id (runTimers fuel endT s) ∧
    countWarningFired id (runTimers fuel endT s).events = countWarningFired id s.events := by
  intro fuel
  induction fuel with
  | zero => intro endT s hL; exact ⟨hL, rfl⟩
  | succ n ih =>
    intro endT s hL
    unfold runTimers
    cases hp : pickNext endT s.pending with
    | none => exact ⟨hL, rfl⟩
    | some t =>
      have hmid : warnedLocked id { s with
          pending := cancelHandle t.handle s.pending,
          now := max s.now t.fireAt } := hL
      obtain ⟨h1, h2⟩ := warnedLocked_fireTimer t hmid
      obtain ⟨h3, h4⟩ := ih endT _ h1
      exact ⟨h3, by rw [h4, h2]⟩

end SubtaskTimeoutManager

namespace SubtaskTimeoutManager

theorem clearHandles_statuses_eq (id : String) (s : ManagerState) :
    (clearHandles id s).statuses = s.statuses := by
  rw [clearHandles_eq]

theorem clearHandles_events_eq (id : String) (s : ManagerState) :
    (clearHandles id s).events = s.events := by
  rw [clearHandles_eq]

theorem clearTimeout_events_eq (id : String) (s : ManagerState) :
    (clearTimeout id s).1.events = s.events := by
  rw [clearTimeout_fst_eq, clearHandles_eq]

theorem startTimeout_events_eq (j : String) (cfg : TimeoutConfig) (s : ManagerState) :
    (startTimeout j cfg s).events = s.events := by
  have hc : (clearTimeout j s).1.events = s.events := clearTimeout_events_eq j s
  by_cases hg : warnGuard cfg
  · obtain ⟨w, hw, hw0, hcb⟩ := hg
    rw [startTimeout_eq_of_warnGuard j cfg s w hw hw0 hcb]
    exact hc
  · rw [startTimeout_eq_of_not_warnGuard j cfg s hg]
    exact hc

theorem startTimeout_lookup_ne (j : String) (cfg : TimeoutConfig) (s : ManagerState)
    {id : String} (hid : id ≠ j) :
    alookup id (startTimeout j cfg s).statuses = alookup id s.statuses := by
  have hc : alookup id (clearTimeout j s).1.statuses = alookup id s.statuses := by
    rw [clearTimeout_fst_eq]
    simp only
    exact alookup_aerase_ne hid
  by_cases hg : warnGuard cfg
  · obtain ⟨w, hw, hw0, hcb⟩ := hg
    rw [startTimeout_eq_of_warnGuard j cfg s w hw hw0 hcb]
    show alookup id (aset j _ (clearTimeout j s).1.statuses) = _
    rw [alookup_aset_ne hid]
    exact hc
  · rw [startTimeout_eq_of_not_warnGuard j cfg s hg]
    show alookup id (aset j _ (clearTimeout j s).1.statuses) = _
    rw [alookup_aset_ne hid]
    exact hc

theorem extendTimeout_state_cases (j : String) (deltaMs : Int)
    (cfg? : Option TimeoutConfig) (s : ManagerState) :
    ((extendTimeout j deltaMs cfg? s).1.statuses = s.statuses ∧
      (extendTimeout j deltaMs cfg? s).1.events = s.events) ∨
    (∃ st tms, alookup j s.statuses = some st ∧ st.isActive = true ∧
      (extendTimeout j deltaMs cfg? s).1.statuses =
        aset j (extendStatus st tms (s.now - st.startTime)) s.statuses ∧
      ((extendTimeout j deltaMs cfg? s).1.events = s.events ∨
       ∃ v, (extendTimeout j deltaMs cfg? s).1.events =
        s.events ++ [Event.extendedFired j v])) := by
  have hxs := clearHandles_statuses_eq j s
  have hxn := clearHandles_now_eq j s
  have hxe := clearHandles_events_eq j s
  cases h : alookup j s.statuses with
  | none =>
    left
    rw [extendTimeout_eq_absent j deltaMs cfg? s h]
    exact ⟨rfl, rfl⟩
  | some st =>
    cases haB : st.isActive with
    | false =>
      left
      rw [extendTimeout_eq_inactive j deltaMs cfg? s st h haB]
      exact ⟨rfl, rfl⟩
    | true =>
      right
      cases cfg? with
      | none =>
        by_cases hcl : st.timeoutMs + deltaMs -
            ((clearHandles j s).now - st.startTime) < 60000
        · refine ⟨st, (clearHandles j s).now - st.startTime + 60000, rfl, haB, ?_, ?_⟩
          · rw [extendTimeout_eq_clamp_none j deltaMs s st h haB hcl]
            simp only
            rw [hxs, hxn]
          · left
            rw [extendTimeout_eq_clamp_none j deltaMs s st h haB hcl]
            exact hxe
        · refine ⟨st, st.timeoutMs + deltaMs, rfl, haB, ?_, ?_⟩
          · rw [extendTimeout_eq_noclamp_none j deltaMs s st h haB hcl]
            simp only
            rw [hxs, hxn]
          · left
            rw [extendTimeout_eq_noclamp_none j deltaMs s st h haB hcl]
            exact hxe
      | some cfg =>
        by_cases hcl : st.timeoutMs + deltaMs -
            ((clearHandles j s).now - st.startTime) < 60000
        · refine ⟨st, (clearHandles j s).now - st.startTime + 60000, rfl, haB, ?_, ?_⟩
          · rw [extendTimeout_eq_clamp_some j deltaMs s st cfg h haB hcl]
            simp only
            rw [hxs, hxn]
          · rw [extendTimeout_eq_clamp_some j deltaMs s st cfg h haB hcl]
            simp only
            by_cases hoe : cfg.hasOnExtended = true
            · right
              exact ⟨_, by rw [if_pos hoe, hxe]⟩
            · left
              rw [if_neg hoe]
              exact hxe
        · by_cases hg : ∃ w, st.warningMs = some w ∧ w ≠ 0 ∧
              (clearHandles j s).now - st.startTime < w ∧ cfg.hasOnWarning = true
          · obtain ⟨w, hw, hw0, hlt, hcb⟩ := hg
            refine ⟨st, st.timeoutMs + deltaMs, rfl, haB, ?_, ?_⟩
            · rw [extendTimeout_eq_noclamp_some_warn j deltaMs s st cfg w h haB hcl
                hw hw0 hlt hcb]
              simp only
              rw [hxs, hxn]
            · rw [extendTimeout_eq_noclamp_some_warn j deltaMs s st cfg w h haB hcl
                hw hw0 hlt hcb]
              simp only
              by_cases hoe : cfg.hasOnExtended = true
              · right
                exact ⟨_, by rw [if_pos hoe, hxe]⟩
              · left
                rw [if_neg hoe]
                exact hxe
          · have hng : ∀ w, st.warningMs = some w →
                w = 0 ∨ ¬ ((clearHandles j s).now - st.startTime < w) ∨
                cfg.hasOnWarning = false := by
              intro w hw
              by_cases h1 : w = 0
              · exact Or.inl h1
              by_cases h2 : (clearHandles j s).now - st.startTime < w
              · by_cases h3 : cfg.hasOnWarning = true
                · exact absurd ⟨w, hw, h1, h2, h3⟩ hg
                · rw [Bool.not_eq_true] at h3
                  exact Or.inr (Or.inr h3)
              · exact Or.inr (Or.inl h2)
            refine ⟨st, st.timeoutMs + deltaMs, rfl, haB, ?_, ?_⟩
            · rw [extendTimeout_eq_noclamp_some_nowarn j deltaMs s st cfg h haB hcl hng]
              simp only
              rw [hxs, hxn]
            · rw [extendTimeout_eq_noclamp_some_nowarn j deltaMs s st cfg h haB hcl hng]
              simp only
              by_cases hoe : cfg.hasOnExtended = true
              · right
                exact ⟨_, by rw [if_pos hoe, hxe]⟩
              · left
                rw [if_neg hoe]
                exact hxe

theorem hasWarnedRecompute_true {e : Int} {w? : Option Int} (w : Int)
    (hw : w? = some w) (hw0 : w ≠ 0) (hle : w ≤ e) :
    hasWarnedRecompute e w? = true := by
  rw [hw]
  show (if w = 0 then false else decide (w ≤ e)) = true
  rw [if_neg hw0]
  exact decide_eq_true hle

end SubtaskTimeoutManager

namespace SubtaskTimeoutManager

theorem warnedLocked_extend {id : String} (j : String) (deltaMs : Int)
    (cfg? : Option TimeoutConfig) {s : ManagerState} (hInv : MInv s)
    (hL : warnedLocked id s) :
    warnedLocked id (extendTimeout j deltaMs cfg? s).1 ∧
    countWarningFired id (extendTimeout j deltaMs cfg? s).1.events =
      countWarningFired id s.events := by
  rcases extendTimeout_state_cases j deltaMs cfg? s with ⟨hstat, hev⟩ |
    ⟨st, tms, hst, _, hstat, hev⟩
  · constructor
    · intro st' h'
      rw [hstat] at h'
      exact hL st' h'
    · rw [hev]
  · constructor
    · intro st' h'
      rw [hstat] at h'
      by_cases hid : id = j
      · rw [hid] at h'
        rw [alookup_aset_self] at h'
        injection h' with hh
        rw [← hh]
        rw [hid] at hL
        have hwt := hL st hst
        obtain ⟨w, hw1, hw2, hw3⟩ := hInv.warned_sound _ (alookup_eq_some_mem hst) hwt
        simp only at hw1 hw3
        show hasWarnedRecompute (s.now - st.startTime) st.warningMs = true
        exact hasWarnedRecompute_true w hw1 hw2 (by omega)
      · rw [alookup_aset_ne hid] at h'
        exact hL st' h'
    · rcases hev with hev | ⟨v, hev⟩
      · rw [hev]
      · rw [hev, countWarningFired_append]
        rw [countWarningFired_single_other id _ (Or.inr (by intro a b hc; cases hc))]
        omega

theorem warnedLocked_clearTimeout {id : String} (j : String) {s : ManagerState}
    (hL : warnedLocked id s) :
    warnedLocked id (clearTimeout j s).1 ∧
    countWarningFired id (clearTimeout j s).1.events = countWarningFired id s.events := by
  constructor
  · intro st' h'
    rw [clearTimeout_fst_eq] at h'
    simp only at h'
    by_cases hid : id = j
    · rw [hid, alookup_aerase_self] at h'
      cases h'
    · rw [alookup_aerase_ne hid] at h'
      exact hL st' h'
  · rw [clearTimeout_events_eq]

theorem warnedLocked_clearAll {id : String} {s : ManagerState} (hL : warnedLocked id s) :
    warnedLocked id (clearAll s) ∧
    countWarningFired id (clearAll s).events = countWarningFired id s.events := by
  unfold clearAll
  have : ∀ (l : List (String × TimeoutStatus)) (acc : ManagerState), warnedLocked id acc →
      warnedLocked id (l.foldl
        (fun acc p => if p.2.isActive = true then (clearTimeout p.1 acc).1 else acc) acc) ∧
      (l.foldl (fun acc p => if p.2.isActive = true then (clearTimeout p.1 acc).1 else acc)
        acc).events = acc.events := by
    intro l
    induction l with
    | nil => intro acc h; exact ⟨h, rfl⟩
    | cons p rest ih =>
      intro acc h
      rw [List.foldl_cons]
      by_cases hp : p.2.isActive = true
      · rw [if_pos hp]
        obtain ⟨h1, _⟩ := @warnedLocked_clearTimeout id p.1 _ h
        obtain ⟨h2, h3⟩ := ih _ h1
        exact ⟨h2, by rw [h3, clearTimeout_events_eq]⟩
      · rw [if_neg hp]
        exact ih _ h
  obtain ⟨h1, h2⟩ := this s.statuses s hL
  exact ⟨h1, by rw [h2]⟩

theorem warnedLocked_applyOp {id : String} (op : Op) (hop : startsId id op = false)
    {s : ManagerState} (hInv : MInv s) (hL : warnedLocked id s) :
    warnedLocked id (applyOp op s) ∧
    countWarningFired id (applyOp op s).events = countWarningFired id s.events := by
  cases op with
  | start j cfg =>
    have hid : id ≠ j := by
      unfold startsId at hop
      simp only [decide_eq_false_iff_not] at hop
      exact fun hc => hop hc.symm
    constructor
    · intro st' h'
      have h'' : alookup id (startTimeout j cfg s).statuses = some st' := h'
      rw [startTimeout_lookup_ne j cfg s hid] at h''
      exact hL st' h''
    · rw [show (applyOp (Op.start j cfg) s).events = (startTimeout j cfg s).events from rfl]
      rw [startTimeout_events_eq]
  | extend j d cfg => exact warnedLocked_extend j d cfg hInv hL
  | clear j => exact warnedLocked_clearTimeout j hL
  | clearAll => exact warnedLocked_clearAll hL
  | dispose =>
    constructor
    · intro st' h'
      have : alookup id ([] : List (String × TimeoutStatus)) = some st' := h'
      cases this
    · rfl
  | advance d =>
    unfold applyOp advance
    obtain ⟨h1, h2⟩ := @warnedLocked_runTimers id
      s.pending.length (s.now + (d : Int)) s hL
    exact ⟨h1, h2⟩

theorem warnedLocked_foldOps {id : String} :
    ∀ (ops2 : List Op) (s : ManagerState),
      ops2.all (fun op => !(startsId id op)) = true → MInv s → warnedLocked id s →
      warnedLocked id (ops2.foldl (fun s op => applyOp op s) s) ∧
      countWarningFired id (ops2.foldl (fun s op => applyOp op s) s).events =
        countWarningFired id s.events := by
  intro ops2
  induction ops2 with
  | nil => intro s _ _ hL; exact ⟨hL, rfl⟩
  | cons op rest ih =>
    intro s hall hInv hL
    rw [List.all_cons] at hall
    rw [Bool.and_eq_true] at hall
    have hop : startsId id op = false := by
      have := hall.1
      rwa [Bool.not_eq_true'] at this
    rw [List.foldl_cons]
    obtain ⟨h1, h2⟩ := warnedLocked_applyOp op hop hInv hL
    obtain ⟨h3, h4⟩ := ih (applyOp op s) hall.2 (inv_applyOp op hInv) h1
    exact ⟨h3, by rw [h4, h2]⟩

end SubtaskTimeoutManager

/-- C3: `hasWarned` is monotone for a record.  If the record of `id` has
`hasWarned = true` in a reachable state, then after any further operations
that do not start a fresh record for `id` (extensions with or without
configs, time advances, clears, `clearAll`, `dispose`) the record — as long
as it still exists — still has `hasWarned = true`, and not a single further
`onWarning` callback fires for `id`, no matter how far an extension pushes
the deadline out. -/
theorem c3_hasWarned_monotone (ops ops2 : List Op) (id : String) (st : TimeoutStatus)
    (h : getStatus id (execOps ops) = some st) (hw : st.hasWarned = true)
    (hno : ops2.all (fun op => !(startsId id op)) = true) :
    (∀ st', getStatus id (execOps (ops ++ ops2)) = some st' → st'.hasWarned = true) ∧
    countWarningFired id (execOps (ops ++ ops2)).events =
      countWarningFired id (execOps ops).events := by
  have hfold : execOps (ops ++ ops2) =
      ops2.foldl (fun s op => applyOp op s) (execOps ops) := by
    unfold execOps
    rw [List.foldl_append]
  have hL : warnedLocked id (execOps ops) := by
    intro st' h'
    unfold getStatus at h
    rw [h] at h'
    injection h' with hh
    rw [← hh]
    exact hw
  obtain ⟨h1, h2⟩ := SubtaskTimeoutManager.warnedLocked_foldOps ops2 (execOps ops) hno
    (inv_execOps ops) hL
  constructor
  · intro st' h'
    rw [hfold] at h'
    exact h1 st' h'
  · rw [hfold]
    exact h2

/-- Witness for C3: the warning fires at 50 s; a later huge extension and a
long advance neither reset `hasWarned` nor fire a second warning. -/
theorem c3_hasWarned_monotone_witness :
    (getStatus "t1" (execOps [Op.start "t1" c5cfg, Op.advance 50000]) = some
      { taskId := "t1", startTime := 0, timeoutMs := 100000, warningMs := some 50000,
        hasWarned := true, isActive := true }) ∧
    (([Op.extend "t1" 500000 (some c5cfg), Op.advance 600000].all
      (fun op => !(startsId "t1" op))) = true) ∧
    ((∀ st', getStatus "t1" (execOps ([Op.start "t1" c5cfg, Op.advance 50000] ++
        [Op.extend "t1" 500000 (some c5cfg), Op.advance 600000])) = some st' →
        st'.hasWarned = true) ∧
     countWarningFired "t1" (execOps ([Op.start "t1" c5cfg, Op.advance 50000] ++
        [Op.extend "t1" 500000 (some c5cfg), Op.advance 600000])).events =
      countWarningFired "t1" (execOps [Op.start "t1" c5cfg, Op.advance 50000]).events) := by
  refine ⟨by decide, by decide, ?_⟩
  exact c3_hasWarned_monotone [Op.start "t1" c5cfg, Op.advance 50000]
    [Op.extend "t1" 500000 (some c5cfg), Op.advance 600000] "t1"
    { taskId := "t1", startTime := 0, timeoutMs := 100000, warningMs := some 50000,
      hasWarned := true, isActive := true }
    (by decide) (by decide) (by decide)

namespace SubtaskTimeoutManager

theorem countTimeoutFired_append (id : String) (l1 l2 : List Event) :
    countTimeoutFired id (l1 ++ l2) =
      countTimeoutFired id l1 + countTimeoutFired id l2 := by
  unfold countTimeoutFired
  rw [List.filter_append, List.length_append]

theorem countTimeoutFired_single_other (id : String) (e : Event)
    (he : eventTask e ≠ id ∨ ∀ j, e ≠ Event.timeoutFired j) :
    countTimeoutFired id [e] = 0 := by
  cases e with
  | warningFired j r => simp [countTimeoutFired]
  | timeoutFired j =>
    rcases he with he | he
    · unfold countTimeoutFired eventTask at *
      simp [he]
    · exact absurd rfl (he j)
  | extendedFired j v => simp [countTimeoutFired]

theorem countTimeoutFired_single_self (id : String) :
    countTimeoutFired id [Event.timeoutFired id] = 1 := by
  simp [countTimeoutFired]

theorem fireTimer_pending_sub {t : Timer} {s : ManagerState} :
    ∀ t' ∈ (fireTimer t s).pending, t' ∈ s.pending := by
  intro t' ht'
  rcases fireTimer_cases t s with heq | ⟨st, hst, hact, hk, heq⟩ |
    ⟨st, rem, hst, hact, hwn, hk, heq⟩
  · rw [heq] at ht'
    exact ht'
  · rw [heq] at ht'
    simp only at ht'
    rw [clearTimeout_fst_eq, clearHandles_eq] at ht'
    simp only at ht'
    exact (mem_cancelOpt_iff.mp ((mem_cancelOpt_iff.mp ht').1)).1
  · rw [heq] at ht'
    exact ht'

theorem fireTimer_pending_length {t : Timer} {s : ManagerState} :
    (fireTimer t s).pending.length ≤ s.pending.length := by
  rcases fireTimer_cases t s with heq | ⟨st, hst, hact, hk, heq⟩ |
    ⟨st, rem, hst, hact, hwn, hk, heq⟩
  · rw [heq]
  · rw [heq]
    simp only
    rw [clearTimeout_fst_eq, clearHandles_eq]
    simp only
    exact (cancelOpt_sublist.trans cancelOpt_sublist).length_le
  · rw [heq]

theorem fireTimer_keeps_of_ne {t : Timer} {s : ManagerState} (hInv : MInv s)
    {t' : Timer} (ht' : t' ∈ s.pending) (hne : t'.taskId ≠ t.taskId) :
    t' ∈ (fireTimer t s).pending := by
  rcases fireTimer_cases t s with heq | ⟨st, hst, hact, hk, heq⟩ |
    ⟨st, rem, hst, hact, hwn, hk, heq⟩
  · rw [heq]
    exact ht'
  · rw [heq]
    simp only
    rw [clearTimeout_fst_eq, clearHandles_eq]
    simp only
    rw [mem_cancelOpt_iff, mem_cancelOpt_iff]
    refine ⟨⟨ht', ?_⟩, ?_⟩
    · intro hc
      have hc' : alookup t.taskId s.timeouts = some t'.handle := hc
      have := hInv.owner_t t' ht' _ (alookup_eq_some_mem hc') rfl
      exact hne this.1.symm
    · intro hc
      have hc' : alookup t.taskId s.warnings = some t'.handle := hc
      have := hInv.owner_w t' ht' _ (alookup_eq_some_mem hc') rfl
      exact hne this.1.symm
  · rw [heq]
    exact ht'

theorem fireTimer_pending_of_warnkind {t : Timer} {s : ManagerState}
    (hk : t.kind ≠ TimerKind.timeoutFire) :
    (fireTimer t s).pending = s.pending := by
  rcases fireTimer_cases t s with heq | ⟨st, hst, hact, hk2, heq⟩ |
    ⟨st, rem, hst, hact, hwn, hk2, heq⟩
  · rw [heq]
  · exact absurd hk2 hk
  · rw [heq]

theorem fireTimer_statuses_ne {t : Timer} {s : ManagerState} {id : String}
    (hid : id ≠ t.taskId) :
    alookup id (fireTimer t s).statuses = alookup id s.statuses := by
  rcases fireTimer_cases t s with heq | ⟨st, hst, hact, hk, heq⟩ |
    ⟨st, rem, hst, hact, hwn, hk, heq⟩
  · rw [heq]
  · rw [heq]
    simp only
    rw [clearTimeout_fst_eq]
    simp only
    exact alookup_aerase_ne hid
  · rw [heq]
    simp only
    exact alookup_aset_ne hid

theorem fireTimer_count_timeout_ne {t : Timer} {s : ManagerState} {id : String}
    (hid : id ≠ t.taskId) :
    countTimeoutFired id (fireTimer t s).events = countTimeoutFired id s.events := by
  rcases fireTimer_cases t s with heq | ⟨st, hst, hact, hk, heq⟩ |
    ⟨st, rem, hst, hact, hwn, hk, heq⟩
  · rw [heq]
  · rw [heq]
    simp only
    rw [countTimeoutFired_append]
    rw [countTimeoutFired_single_other id _ (Or.inl (by
      unfold eventTask
      exact fun hc => hid hc.symm))]
    omega
  · rw [heq]
    simp only
    rw [countTimeoutFired_append]
    rw [countTimeoutFired_single_other id _ (Or.inr (by intro j hc; cases hc))]
    omega

theorem fireTimer_count_timeout_warnkind {t : Timer} {s : ManagerState} {id : String}
    (hk : t.kind ≠ TimerKind.timeoutFire) :
    countTimeoutFired id (fireTimer t s).events = countTimeoutFired id s.events := by
  rcases fireTimer_cases t s with heq | ⟨st, hst, hact, hk2, heq⟩ |
    ⟨st, rem, hst, hact, hwn, hk2, heq⟩
  · rw [heq]
  · exact absurd hk2 hk
  · rw [heq]
    simp only
    rw [countTimeoutFired_append]
    rw [countTimeoutFired_single_other id _ (Or.inr (by intro j hc; cases hc))]
    omega

theorem fireTimer_keeps_active {t : Timer} {s : ManagerState} {id : String}
    (h : ∃ st, alookup id s.statuses = some st ∧ st.isActive = true)
    (hc : t.kind ≠ TimerKind.timeoutFire ∨ t.taskId ≠ id) :
    ∃ st, alookup id (fireTimer t s).statuses = some st ∧ st.isActive = true := by
  obtain ⟨st, hst, hact⟩ := h
  by_cases hid : id = t.taskId
  · rcases fireTimer_cases t s with heq | ⟨st2, hst2, hact2, hk2, heq⟩ |
      ⟨st2, rem, hst2, hact2, hwn2, hk2, heq⟩
    · rw [heq]
      exact ⟨st, hst, hact⟩
    · rcases hc with hc | hc
      · exact absurd hk2 hc
      · exact absurd hid (fun hcc => hc hcc.symm)
    · rw [heq]
      simp only
      rw [hid, alookup_aset_self]
      refine ⟨_, rfl, ?_⟩
      show st2.isActive = true
      exact hact2
  · rw [fireTimer_statuses_ne hid]
    exact ⟨st, hst, hact⟩

end SubtaskTimeoutManager

namespace SubtaskTimeoutManager

theorem inv_midState {s : ManagerState} (t : Timer) (hInv : MInv s) :
    MInv { s with pending := cancelHandle t.handle s.pending, now := max s.now t.fireAt } :=
  inv_raise_now (inv_cancel_pending hInv t.handle) (le_max_left _ _)

theorem inv_fireStep {s : ManagerState} {t : Timer} (hInv : MInv s)
    (hmem : t ∈ s.pending) :
    MInv (fireTimer t { s with
      pending := cancelHandle t.handle s.pending,
      now := max s.now t.fireAt }) := by
  refine inv_fireTimer (inv_midState t hInv) ?_
  intro st hst hk
  obtain ⟨w, hw1, hw2, hw3⟩ := hInv.warn_timer_sound t hmem hk st hst
  exact ⟨w, hw1, hw2, le_trans hw3 (le_max_right _ _)⟩

theorem cancelHandle_length_lt {t : Timer} {l : List Timer} (ht : t ∈ l) :
    (cancelHandle t.handle l).length < l.length := by
  unfold cancelHandle
  exact List.length_filter_lt_length_iff_exists.mpr ⟨t, ht, by simp⟩

theorem runTimers_absent (id : String) : ∀ (fuel : Nat) (endT : Int) (s : ManagerState),
    MInv s →
    alookup id s.statuses = none → (∀ t ∈ s.pending, t.taskId ≠ id) →
    (alookup id (runTimers fuel endT s).statuses = none ∧
     (∀ t ∈ (runTimers fuel endT s).pending, t.taskId ≠ id) ∧
     countTimeoutFired id (runTimers fuel endT s).events =
       countTimeoutFired id s.events) := by
  intro fuel
  induction fuel with
  | zero => intro endT s _ h1 h2; exact ⟨h1, h2, rfl⟩
  | succ n ih =>
    intro endT s hInv h1 h2
    unfold runTimers
    cases hp : pickNext endT s.pending with
    | none => exact ⟨h1, h2, rfl⟩
    | some t =>
      obtain ⟨hmem, hle⟩ := pickNext_mem hp
      have htid : t.taskId ≠ id := h2 t hmem
      have hInvF := inv_fireStep hInv hmem
      have hst' : alookup id (fireTimer t { s with
          pending := cancelHandle t.handle s.pending,
          now := max s.now t.fireAt }).statuses = none := by
        rw [fireTimer_statuses_ne (fun hc => htid hc.symm)]
        exact h1
      have hpend' : ∀ t' ∈ (fireTimer t { s with
          pending := cancelHandle t.handle s.pending,
          now := max s.now t.fireAt }).pending, t'.taskId ≠ id := by
        intro t' ht'
        have hmm := fireTimer_pending_sub t' ht'
        rw [mem_cancelHandle_iff] at hmm
        exact h2 t' hmm.1
      obtain ⟨ha1, ha2, ha3⟩ := ih endT _ hInvF hst' hpend'
      refine ⟨ha1, ha2, ?_⟩
      rw [ha3]
      exact fireTimer_count_timeout_ne (fun hc => htid hc.symm)

end SubtaskTimeoutManager

namespace SubtaskTimeoutManager

theorem runTimers_succ_some {n : Nat} {endT : Int} {s : ManagerState} {t : Timer}
    (hp : pickNext endT s.pending = some t) :
    runTimers (n + 1) endT s = runTimers n endT (fireTimer t { s with
      pending := cancelHandle t.handle s.pending,
      now := max s.now t.fireAt }) := by
  show (match pickNext endT s.pending with
    | none => s
    | some t => runTimers n endT (fireTimer t { s with
        pending := cancelHandle t.handle s.pending,
        now := max s.now t.fireAt })) = _
  rw [hp]

theorem runTimers_fires (id : String) : ∀ (fuel : Nat) (endT : Int) (s : ManagerState),
    MInv s → s.pending.length ≤ fuel →
    (∃ st, alookup id s.statuses = some st ∧ st.isActive = true) →
    (∃ tT ∈ s.pending, tT.taskId = id ∧ tT.kind = TimerKind.timeoutFire ∧ tT.fireAt ≤ endT) →
    (alookup id (runTimers fuel endT s).statuses = none ∧
     (∀ t ∈ (runTimers fuel endT s).pending, t.taskId ≠ id) ∧
     countTimeoutFired id (runTimers fuel endT s).events =
       countTimeoutFired id s.events + 1) := by
  intro fuel
  induction fuel with
  | zero =>
    intro endT s _ hlen _ htmr
    obtain ⟨tT, htT, _⟩ := htmr
    rw [Nat.le_zero, List.length_eq_zero] at hlen
    rw [hlen] at htT
    cases htT
  | succ n ih =>
    intro endT s hInv hlen hstat htmr
    obtain ⟨tT, htT, htTid, htTkind, htTle⟩ := htmr
    cases hp : pickNext endT s.pending with
    | none =>
      exfalso
      exact pickNext_eq_none hp tT htT htTle
    | some t =>
      obtain ⟨hmem, hle⟩ := pickNext_mem hp
      have hInvMid := inv_midState t hInv
      have hInvF := inv_fireStep hInv hmem
      have hlenF : (fireTimer t { s with
          pending := cancelHandle t.handle s.pending,
          now := max s.now t.fireAt }).pending.length ≤ n := by
        have h1 := fireTimer_pending_length (t := t) (s := { s with
          pending := cancelHandle t.handle s.pending,
          now := max s.now t.fireAt })
        have h2 : (cancelHandle t.handle s.pending).length < s.pending.length :=
          cancelHandle_length_lt hmem
        simp only at h1
        omega
      by_cases hfire : t.taskId = id ∧ t.kind = TimerKind.timeoutFire
      · -- the id's timeout timer fires now
        obtain ⟨st, hst, hact⟩ := hstat
        have hstMid : alookup t.taskId { s with
            pending := cancelHandle t.handle s.pending,
            now := max s.now t.fireAt }.statuses = some st := by
          rw [hfire.1]
          exact hst
        have heq := fireTimer_eq_timeout hfire.2 hstMid hact
        rw [runTimers_succ_some hp, heq]
        have hstF : alookup id ({ (clearTimeout t.taskId { s with
            pending := cancelHandle t.handle s.pending,
            now := max s.now t.fireAt }).1 with
            events := ({ s with
              pending := cancelHandle t.handle s.pending,
              now := max s.now t.fireAt } : ManagerState).events ++
                [Event.timeoutFired t.taskId] } : ManagerState).statuses = none := by
          simp only
          rw [clearTimeout_fst_eq]
          simp only
          rw [← hfire.1]
          exact alookup_aerase_self
        have hpendF : ∀ t' ∈ ({ (clearTimeout t.taskId { s with
            pending := cancelHandle t.handle s.pending,
            now := max s.now t.fireAt }).1 with
            events := ({ s with
              pending := cancelHandle t.handle s.pending,
              now := max s.now t.fireAt } : ManagerState).events ++
                [Event.timeoutFired t.taskId] } : ManagerState).pending, t'.taskId ≠ id := by
          intro t' ht'
          simp only at ht'
          rw [clearTimeout_fst_eq] at ht'
          simp only at ht'
          rw [← hfire.1]
          exact clearHandles_no_id_timer hInvMid t' ht'
        have hInvFF : MInv ({ (clearTimeout t.taskId { s with
            pending := cancelHandle t.handle s.pending,
            now := max s.now t.fireAt }).1 with
            events := ({ s with
              pending := cancelHandle t.handle s.pending,
              now := max s.now t.fireAt } : ManagerState).events ++
                [Event.timeoutFired t.taskId] } : ManagerState) := by
          rw [← heq]
          exact hInvF
        obtain ⟨ha1, ha2, ha3⟩ := runTimers_absent id n endT _ hInvFF hstF hpendF
        refine ⟨ha1, ha2, ?_⟩
        rw [ha3]
        simp only
        rw [countTimeoutFired_append, hfire.1, countTimeoutFired_single_self]
      · -- some other timer fires; the id timer survives
        have hkeep : (∃ st, alookup id (fireTimer t { s with
            pending := cancelHandle t.handle s.pending,
            now := max s.now t.fireAt }).statuses = some st ∧ st.isActive = true) := by
          refine fireTimer_keeps_active hstat ?_
          by_cases h1 : t.taskId = id
          · left
            intro h2
            exact hfire ⟨h1, h2⟩
          · right
            exact h1
        have htTne : tT ≠ t := by
          intro hc
          rw [hc] at htTid htTkind
          exact hfire ⟨htTid, htTkind⟩
        have htThandle : tT.handle ≠ t.handle := by
          intro hc
          exact htTne (List.inj_on_of_nodup_map hInv.pending_nodup htT hmem hc)
        have htTmid : tT ∈ ({ s with
            pending := cancelHandle t.handle s.pending,
            now := max s.now t.fireAt } : ManagerState).pending := by
          simp only
          rw [mem_cancelHandle_iff]
          exact ⟨htT, htThandle⟩
        have htTF : tT ∈ (fireTimer t { s with
            pending := cancelHandle t.handle s.pending,
            now := max s.now t.fireAt }).pending := by
          by_cases h1 : t.taskId = id
          · have hk : t.kind ≠ TimerKind.timeoutFire := fun h2 => hfire ⟨h1, h2⟩
            rw [fireTimer_pending_of_warnkind hk]
            exact htTmid
          · refine fireTimer_keeps_of_ne hInvMid htTmid ?_
            rw [htTid]
            exact fun hc => h1 hc.symm
        rw [runTimers_succ_some hp]
        obtain ⟨ha1, ha2, ha3⟩ := ih endT _ hInvF hlenF hkeep ⟨tT, htTF, htTid, htTkind, htTle⟩
        refine ⟨ha1, ha2, ?_⟩
        rw [ha3]
        have hcnt : countTimeoutFired id (fireTimer t { s with
            pending := cancelHandle t.handle s.pending,
            now := max s.now t.fireAt }).events = countTimeoutFired id s.events := by
          by_cases h1 : t.taskId = id
          · exact fireTimer_count_timeout_warnkind (fun h2 => hfire ⟨h1, h2⟩)
          · exact fireTimer_count_timeout_ne (fun hc => h1 hc.symm)
        rw [hcnt]

end SubtaskTimeoutManager

namespace SubtaskTimeoutManager

theorem startTimeout_status_self (id : String) (cfg : TimeoutConfig) (s : ManagerState) :
    alookup id (startTimeout id cfg s).statuses =
      some (freshStatus id cfg (clearTimeout id s).1.now) := by
  by_cases hg : warnGuard cfg
  · obtain ⟨w, hw, hw0, hcb⟩ := hg
    rw [startTimeout_eq_of_warnGuard id cfg s w hw hw0 hcb]
    exact alookup_aset_self
  · rw [startTimeout_eq_of_not_warnGuard id cfg s hg]
    exact alookup_aset_self

theorem startTimeout_now (id : String) (cfg : TimeoutConfig) (s : ManagerState) :
    (startTimeout id cfg s).now = (clearTimeout id s).1.now := by
  by_cases hg : warnGuard cfg
  · obtain ⟨w, hw, hw0, hcb⟩ := hg
    rw [startTimeout_eq_of_warnGuard id cfg s w hw hw0 hcb]
  · rw [startTimeout_eq_of_not_warnGuard id cfg s hg]

theorem startTimeout_has_timeout_timer (id : String) (cfg : TimeoutConfig)
    (s : ManagerState) :
    ∃ t ∈ (startTimeout id cfg s).pending, t.taskId = id ∧
      t.kind = TimerKind.timeoutFire ∧
      t.fireAt = (clearTimeout id s).1.now + cfg.timeoutMs := by
  by_cases hg : warnGuard cfg
  · obtain ⟨w, hw, hw0, hcb⟩ := hg
    rw [startTimeout_eq_of_warnGuard id cfg s w hw hw0 hcb]
    refine ⟨⟨(clearTimeout id s).1.nextHandle + 1,
      (clearTimeout id s).1.now + cfg.timeoutMs, id, TimerKind.timeoutFire⟩, ?_, rfl, rfl, rfl⟩
    exact List.mem_append.mpr (Or.inr (List.mem_cons.mpr (Or.inr
      (List.mem_singleton.mpr rfl))))
  · rw [startTimeout_eq_of_not_warnGuard id cfg s hg]
    refine ⟨⟨(clearTimeout id s).1.nextHandle,
      (clearTimeout id s).1.now + cfg.timeoutMs, id, TimerKind.timeoutFire⟩, ?_, rfl, rfl, rfl⟩
    exact List.mem_append.mpr (Or.inr (List.mem_singleton.mpr rfl))

end SubtaskTimeoutManager

/-- C6: starting a timeout with duration `d > 0` and then advancing the
clock by exactly `d`, with no intervening operations, fires `onTimeout(id)`
exactly once (exactly one `timeoutFired id` event is appended during the
advance), after which `isActive(id)` is false and the record has been
removed from the table. -/
theorem c6_timeout_fires_once (ops : List Op) (id : String) (cfg : TimeoutConfig)
    (hd : 0 < cfg.timeoutMs) :
    countTimeoutFired id
        (advance cfg.timeoutMs.toNat (startTimeout id cfg (execOps ops))).events =
      countTimeoutFired id (startTimeout id cfg (execOps ops)).events + 1 ∧
    isActive id (advance cfg.timeoutMs.toNat (startTimeout id cfg (execOps ops))) = false ∧
    getStatus id (advance cfg.timeoutMs.toNat (startTimeout id cfg (execOps ops))) = none := by
  have hInv1 : MInv (startTimeout id cfg (execOps ops)) :=
    inv_startTimeout (inv_execOps ops)
  have htonat : ((cfg.timeoutMs.toNat : Nat) : Int) = cfg.timeoutMs :=
    Int.toNat_of_nonneg hd.le
  have hstat : ∃ st, alookup id (startTimeout id cfg (execOps ops)).statuses = some st ∧
      st.isActive = true := by
    refine ⟨freshStatus id cfg (clearTimeout id (execOps ops)).1.now,
      startTimeout_status_self id cfg (execOps ops), rfl⟩
  have htmr : ∃ tT ∈ (startTimeout id cfg (execOps ops)).pending, tT.taskId = id ∧
      tT.kind = TimerKind.timeoutFire ∧
      tT.fireAt ≤ (startTimeout id cfg (execOps ops)).now + (cfg.timeoutMs.toNat : Int) := by
    obtain ⟨t, ht, h1, h2, h3⟩ := startTimeout_has_timeout_timer id cfg (execOps ops)
    refine ⟨t, ht, h1, h2, ?_⟩
    rw [h3, startTimeout_now, htonat]
  obtain ⟨ha1, ha2, ha3⟩ := SubtaskTimeoutManager.runTimers_fires id
    (startTimeout id cfg (execOps ops)).pending.length
    ((startTimeout id cfg (execOps ops)).now + (cfg.timeoutMs.toNat : Int))
    (startTimeout id cfg (execOps ops)) hInv1 (le_refl _) hstat htmr
  refine ⟨?_, ?_, ?_⟩
  · exact ha3
  · exact isActive_eq_false_of_none ha1
  · exact ha1

/-- Witness for C6: the spec's concrete scenario — `start("t1", 5000)` then
advancing exactly 5000 ms fires `onTimeout` once and deactivates the id. -/
theorem c6_timeout_fires_once_witness :
    ((0 : Int) < c4cfg.timeoutMs) ∧
    (countTimeoutFired "t1"
        (advance c4cfg.timeoutMs.toNat
          (startTimeout "t1" c4cfg (execOps []))).events =
      countTimeoutFired "t1" (startTimeout "t1" c4cfg (execOps [])).events + 1 ∧
    isActive "t1" (advance c4cfg.timeoutMs.toNat
      (startTimeout "t1" c4cfg (execOps []))) = false ∧
    getStatus "t1" (advance c4cfg.timeoutMs.toNat
      (startTimeout "t1" c4cfg (execOps []))) = none) := by
  refine ⟨by decide, ?_⟩
  exact c6_timeout_fires_once [] "t1" c4cfg (by decide)
